import Mathlib

/-!
Verification of the reminder engine of `ambrog.io` against its
natural-language specification.

The Rust sources are shallowly embedded: machine integers are modelled as
`Nat`/`Int` with explicit wrap-arounds where the release-mode Rust semantics
wraps, fallible operations return `Option`, and the chrono date-time values
are modelled as civil records (calendar fields) together with a fixed
UTC-offset in minutes standing for the time zone of the grid (chrono's
`DateTime<Tz>` stores an instant plus an offset; comparisons between
date-times compare instants, which the model mirrors through `toInstant`).
Nanoseconds are dropped (second precision); chrono's bounded year range is
idealised to unbounded integers.
-/

namespace Ambrogio

/-! ## Bitmap (src/reminders/src/bitmap.rs)

`Bitmap` is the enum with variants `Byte(u8)`, `Short(u16)`, `Int(u32)`,
`Longs(Vec<u64>)`.  Payloads are `Nat`s; well-formedness (`Bitmap.wf`)
records the machine-integer ranges the Rust types enforce.

Rust's `x & (1 << position) != 0` masks the shift amount in release builds
(`1u8 << 8` evaluates as `1u8 << 0`); debug builds panic on such shifts.
The embedding uses the release-mode masking semantics, written with
`Nat.testBit x (position % width)`. -/

inductive Bitmap where
  | byte (x : Nat)
  | short (x : Nat)
  | int (x : Nat)
  | longs (v : List Nat)
deriving DecidableEq, Repr

namespace Bitmap

/-- Machine-integer ranges of the Rust payloads (`u8`, `u16`, `u32`, `Vec<u64>`). -/
def wf : Bitmap → Prop
  | byte x => x < 2 ^ 8
  | short x => x < 2 ^ 16
  | int x => x < 2 ^ 32
  | longs v => ∀ y ∈ v, y < 2 ^ 64

instance : DecidablePred wf := by
  intro b
  cases b <;> simp [wf] <;> infer_instance

/-- `Bitmap::of_size` -/
def of_size (size : Nat) : Bitmap :=
  if 1 ≤ size ∧ size ≤ 8 then .byte 0
  else if 9 ≤ size ∧ size ≤ 16 then .short 0
  else if 17 ≤ size ∧ size ≤ 32 then .int 0
  else .longs (List.replicate (size / 64 + 1) 0)

/-- `Bitmap::get`.  The `Longs` arm is range-guarded in the source; the
fixed-width arms shift by the raw position, which release-mode Rust masks
modulo the integer width. -/
def get : Bitmap → Nat → Bool
  | byte x, position => Nat.testBit x (position % 8)
  | short x, position => Nat.testBit x (position % 16)
  | int x, position => Nat.testBit x (position % 32)
  | longs v, position =>
      if position < v.length * 64 then
        Nat.testBit (v.getD (position / 64) 0) (position % 64)
      else false

/-- `Bitmap::set_internal` (an OR with `bit << position`; the `Longs` arm is
range-guarded, the fixed-width arms mask the shift in release builds). -/
def set_internal (b : Bitmap) (position : Nat) (value : Bool) : Bitmap :=
  let bit : Nat := if value then 1 else 0
  match b with
  | byte x => byte (x ||| (bit <<< (position % 8)))
  | short x => short (x ||| (bit <<< (position % 16)))
  | int x => int (x ||| (bit <<< (position % 32)))
  | longs v =>
      if position < v.length * 64 then
        longs (v.set (position / 64) ((v.getD (position / 64) 0) ||| (bit <<< (position % 64))))
      else longs v

/-- `Bitmap::set` -/
def set (b : Bitmap) (position : Nat) : Bitmap :=
  b.set_internal position true

/-- `Bitmap::unset` (the source ORs with `0 << position`, hence a no-op). -/
def unset (b : Bitmap) (position : Nat) : Bitmap :=
  b.set_internal position false

/-- `Bitmap::explicitly_set` -/
def explicitly_set (size : Nat) (bits : List Nat) : Bitmap :=
  bits.foldl (fun b bit => b.set bit) (of_size size)

/-- `Bitmap::clear` (zero the payload, keep the variant). -/
def clear : Bitmap → Bitmap
  | byte _ => byte 0
  | short _ => short 0
  | int _ => int 0
  | longs v => longs (v.map (fun _ => 0))

/-- `Bitmap::len` -/
def len : Bitmap → Nat
  | byte _ => 8
  | short _ => 16
  | int _ => 32
  | longs v => v.length * 64

/-- `Bitmap::all_set` -/
def all_set (size : Nat) : Bitmap :=
  (List.range size).foldl (fun b i => b.set i) (of_size size)

/-- `Bitmap::next_set`: smallest `i` with `from < i < len` and `get i`. -/
def next_set (b : Bitmap) (start : Nat) : Option Nat :=
  (List.range b.len).find? (fun i => start + 1 ≤ i && b.get i)

/-- `Bitmap::first_set` -/
def first_set (b : Bitmap) : Option Nat :=
  b.next_set 0

/-- `Bitmap::iter(from)` materialised as the list of indices the Rust
iterator yields: the set positions strictly above `from`, in order. -/
def iter (b : Bitmap) (start : Nat) : List Nat :=
  (List.range b.len).filter (fun i => start + 1 ≤ i && b.get i)

/-- `split_u16` / `split_u32` / `split_u64`: the little-endian byte
decompositions `((0xFF << 8l) & x) >> 8l`. -/
def split_bytes (count : Nat) (x : Nat) : List Nat :=
  (List.range count).map (fun l => (x >>> (l * 8)) % 256)

/-- `impl From<Bitmap> for Vec<u8>` -/
def toBytes : Bitmap → List Nat
  | byte x => [x]
  | short x => split_bytes 2 x
  | int x => split_bytes 4 x
  | longs v => (v.map (split_bytes 8)).flatten

/-- chunks of 8 bytes, as `value.chunks(8)` in the decoder. -/
def chunks8 (l : List Nat) : List (List Nat) :=
  if h : l = [] then []
  else l.take 8 :: chunks8 (l.drop 8)
termination_by l.length
decreasing_by
  have hpos : 0 < l.length := List.length_pos.mpr h
  simp [List.length_drop]
  omega

/-- little-endian fold `v | (x << (i*8))` used by the decoder
(`enumerate().fold(0, ..)` written with an explicit running index). -/
def fold_le_go (v i : Nat) : List Nat → Nat
  | [] => v
  | x :: rest => fold_le_go (v ||| (x <<< (i * 8))) (i + 1) rest

/-- little-endian fold `v | (x << (i*8))` used by the decoder. -/
def fold_le (bytes : List Nat) : Nat :=
  fold_le_go 0 0 bytes

/-- `impl From<Vec<u8>> for Bitmap` -/
def ofBytes (value : List Nat) : Bitmap :=
  match value.length with
  | 1 => byte (value.getD 0 0)
  | 2 => short (fold_le value)
  | 3 => int (fold_le value)
  | 4 => int (fold_le value)
  | _ => longs ((chunks8 value).map fold_le)

end Bitmap

/-! ## Civil date-time model (chrono)

A chrono `DateTime<Tz>` is an instant together with a time-zone offset; the
calendar accessors (`year()`, `month0()`, ...) return the civil fields of
the instant expressed at that offset, and `with_*` rebuild a date-time from
modified civil fields, returning `None` for invalid combinations.  The model
stores the civil fields directly (`LDT`, at second precision) and treats the
time zone as a fixed UTC-offset in whole minutes carried by the grid;
`toInstant` recovers the number: seconds since the epoch of the fields read
as UTC, so that chrono's instant-based order and equality on `DateTime<Utc>`
are `toInstant` comparisons. -/

/-- chrono `NaiveDate::is_leap_year` (proleptic Gregorian). -/
def isLeap (y : Int) : Bool :=
  y % 4 == 0 && (y % 100 != 0 || y % 400 == 0)

/-- days of month `m0` (0-based) in a year with leap flag `leap`. -/
def daysInMonthB (leap : Bool) : Nat → Nat
  | 0 => 31
  | 1 => if leap then 29 else 28
  | 2 => 31
  | 3 => 30
  | 4 => 31
  | 5 => 30
  | 6 => 31
  | 7 => 31
  | 8 => 30
  | 9 => 31
  | 10 => 30
  | _ => 31

def daysInMonth (y : Int) (m0 : Nat) : Nat :=
  daysInMonthB (isLeap y) m0

/-- days in the year before month `m0` (0-based). -/
def daysBeforeMonth (leap : Bool) : Nat → Nat
  | 0 => 0
  | 1 => 31
  | 2 => if leap then 60 else 59
  | 3 => if leap then 91 else 90
  | 4 => if leap then 121 else 120
  | 5 => if leap then 152 else 151
  | 6 => if leap then 182 else 181
  | 7 => if leap then 213 else 212
  | 8 => if leap then 244 else 243
  | 9 => if leap then 274 else 273
  | 10 => if leap then 305 else 304
  | _ => if leap then 335 else 334

/-- number of leap years `k` with `k < y` (relative count; only differences
are used).  `ediv` by a positive literal is floor division, also below 1970. -/
def leapsBefore (y : Int) : Int :=
  (y - 1) / 4 - (y - 1) / 100 + (y - 1) / 400

/-- days since 1970-01-01 of the civil date `(y, m0, d0)` (0-based month and
day), proleptic Gregorian. -/
def daysFromCivil (y : Int) (m0 d0 : Nat) : Int :=
  365 * (y - 1970) + (leapsBefore y - leapsBefore 1970) +
    (daysBeforeMonth (isLeap y) m0 : Int) + (d0 : Int)

/-- civil date-time at second precision (chrono nanoseconds are dropped;
no claim depends on sub-second detail). -/
structure LDT where
  year : Int
  month0 : Nat
  day0 : Nat
  hour : Nat
  minute : Nat
  second : Nat
deriving DecidableEq, Repr

namespace LDT

def valid (d : LDT) : Prop :=
  d.month0 < 12 ∧ d.day0 < daysInMonth d.year d.month0 ∧
    d.hour < 24 ∧ d.minute < 60 ∧ d.second < 60

instance : DecidablePred valid := by
  intro d
  unfold valid
  infer_instance

/-- seconds since the epoch of the fields read at UTC. -/
def toInstant (d : LDT) : Int :=
  daysFromCivil d.year d.month0 d.day0 * 86400 +
    ((d.hour : Int) * 3600 + (d.minute : Int) * 60 + (d.second : Int))

/-- `num_days_from_monday` of the date's weekday (1970-01-01 is a Thursday). -/
def weekdayFromMonday (d : LDT) : Nat :=
  ((daysFromCivil d.year d.month0 d.day0 + 3) % 7).toNat

def nextDayD (d : LDT) : LDT :=
  if d.day0 + 1 < daysInMonth d.year d.month0 then { d with day0 := d.day0 + 1 }
  else if d.month0 + 1 < 12 then { d with month0 := d.month0 + 1, day0 := 0 }
  else { d with year := d.year + 1, month0 := 0, day0 := 0 }

def prevDayD (d : LDT) : LDT :=
  if 0 < d.day0 then { d with day0 := d.day0 - 1 }
  else if 0 < d.month0 then
    { d with month0 := d.month0 - 1, day0 := daysInMonth d.year (d.month0 - 1) - 1 }
  else { d with year := d.year - 1, month0 := 11, day0 := 30 }

def addDaysNat (d : LDT) : Nat → LDT
  | 0 => d
  | n + 1 => nextDayD (addDaysNat d n)

def subDaysNat (d : LDT) : Nat → LDT
  | 0 => d
  | n + 1 => prevDayD (subDaysNat d n)

/-- shift the date by `k` days (adding a chrono `Duration` worth of whole
days to the instant). -/
def addDays (d : LDT) (k : Int) : LDT :=
  if 0 ≤ k then addDaysNat d k.toNat
  else subDaysNat d (-k).toNat

/-- add `k` seconds to the instant (chrono `Duration` addition; the civil
fields are re-normalised through the day boundary). -/
def addSeconds (d : LDT) (k : Int) : LDT :=
  let tot : Int := (d.hour : Int) * 3600 + (d.minute : Int) * 60 + (d.second : Int) + k
  let rem : Int := tot % 86400
  let date := addDays d (tot / 86400)
  { date with
      hour := (rem / 3600).toNat
      minute := ((rem % 3600) / 60).toNat
      second := (rem % 60).toNat }

/-- `with_minute` (chrono validates the range; a fixed offset never makes a
local time ambiguous). -/
def withMinute (d : LDT) (m : Nat) : Option LDT :=
  if m < 60 then some { d with minute := m } else none

/-- `with_hour` -/
def withHour (d : LDT) (h : Nat) : Option LDT :=
  if h < 24 then some { d with hour := h } else none

/-- `with_day0` (chrono validates the day against the month). -/
def withDay0 (d : LDT) (day : Nat) : Option LDT :=
  if day < daysInMonth d.year d.month0 then some { d with day0 := day } else none

/-- `with_month0` (chrono re-validates the day in the new month). -/
def withMonth0 (d : LDT) (m : Nat) : Option LDT :=
  if m < 12 ∧ d.day0 < daysInMonth d.year m then some { d with month0 := m } else none

/-- `with_year` (chrono re-validates the date in the new year). -/
def withYear (d : LDT) (y : Int) : Option LDT :=
  if d.day0 < daysInMonth y d.month0 then some { d with year := y } else none

/-- `with_second` -/
def withSecond (d : LDT) (s : Nat) : Option LDT :=
  if s < 60 then some { d with second := s } else none

end LDT

/-! ## ScheduleGrid (src/reminders/src/schedule.rs) -/

structure ScheduleGrid where
  minutes : Bitmap
  hours : Bitmap
  weeks_of_month : Bitmap
  days_of_month : Bitmap
  days_of_week : Bitmap
  months_of_year : Bitmap
  /-- `NonZeroU8` in the source. -/
  year_cadence : Nat
  /-- `u32` in the source, used as `i32` by the search. -/
  year_start : Int
  /-- the grid's `Tz`, modelled as a fixed UTC-offset in minutes. -/
  offset : Int
deriving DecidableEq, Repr

namespace ScheduleGrid

/-- `ScheduleGrid::explicitly_new` (note the source builds the hour bitmap
with width 60, not 24). -/
def explicitly_new (minutes hours weeks_of_month days_of_month days_of_week
    months_of_year : List Nat) (year_cadence : Nat) (year_start : Int)
    (offset : Int) : ScheduleGrid where
  minutes := Bitmap.explicitly_set 60 minutes
  hours := Bitmap.explicitly_set 60 hours
  weeks_of_month := Bitmap.explicitly_set 5 weeks_of_month
  days_of_month := Bitmap.explicitly_set 31 days_of_month
  days_of_week := Bitmap.explicitly_set 7 days_of_week
  months_of_year := Bitmap.explicitly_set 12 months_of_year
  year_cadence := year_cadence
  year_start := year_start
  offset := offset

/-- `ScheduleGrid::set_minute` -/
def set_minute (now : LDT) (minute : Nat) : Option LDT :=
  now.withMinute minute

/-- `ScheduleGrid::set_hour` -/
def set_hour (now : LDT) (hour : Nat) : Option LDT :=
  (set_minute now 0).bind (fun d => d.withHour hour)

/-- `ScheduleGrid::set_day0` -/
def set_day0 (now : LDT) (day : Nat) : Option LDT :=
  (set_hour now 0).bind (fun d => d.withDay0 day)

/-- `ScheduleGrid::set_month0` -/
def set_month0 (now : LDT) (month : Nat) : Option LDT :=
  (set_day0 now 0).bind (fun d => d.withMonth0 month)

/-- `ScheduleGrid::set_year` (the source unwraps; with month and day reset
to January 1st the rebuild never fails, so the default is never taken). -/
def set_year (now : LDT) (years : Int) : LDT :=
  (((set_month0 now 0).bind (fun d => d.withYear years)).getD now)

/-- `ScheduleGrid::truncate_to_minute` -/
def truncate_to_minute (now : LDT) : LDT :=
  { now with second := 0 }

/-- `ScheduleGrid::weekday_occurrance` -/
def weekday_occurrance (now : LDT) : Nat :=
  now.day0 / 7

/-- `ScheduleGrid::find_minute` -/
def find_minute (g : ScheduleGrid) (now : LDT) : Option LDT :=
  if g.minutes.get now.minute then some now
  else (g.minutes.iter now.minute).findSome? (fun minute => set_minute now minute)

/-- `ScheduleGrid::find_hour` -/
def find_hour (g : ScheduleGrid) (now : LDT) : Option LDT :=
  match (if g.hours.get now.hour then g.find_minute now else none) with
  | some d => some d
  | none =>
      (g.hours.iter now.hour).findSome?
        (fun hour => (set_hour now hour).bind (fun d => g.find_minute d))

/-- `ScheduleGrid::find_day`.  The fallback loop faithfully reproduces the
source: the day-of-week and week-of-month guards read `now`, not the
candidate day `current` just built by `set_day0`. -/
def find_day (g : ScheduleGrid) (now : LDT) : Option LDT :=
  match (if g.days_of_month.get now.day0 && g.days_of_week.get now.weekdayFromMonday
          && g.weeks_of_month.get (weekday_occurrance now) then g.find_hour now else none) with
  | some d => some d
  | none =>
      (g.days_of_month.iter now.day0).findSome? (fun day =>
        match set_day0 now day with
        | none => none
        | some current =>
            if !(g.days_of_week.get now.weekdayFromMonday
                && g.weeks_of_month.get (weekday_occurrance now)) then none
            else g.find_hour current)

/-- `ScheduleGrid::find_month` -/
def find_month (g : ScheduleGrid) (now : LDT) : Option LDT :=
  match (if g.months_of_year.get now.month0 then g.find_day now else none) with
  | some d => some d
  | none =>
      (g.months_of_year.iter now.month0).findSome?
        (fun month => (set_month0 now month).bind (fun d => g.find_day d))

/-- local (grid-offset) view of a UTC instant: `with_timezone(&self.timezone)`. -/
def toLocal (g : ScheduleGrid) (d : LDT) : LDT :=
  d.addSeconds (60 * g.offset)

/-- back to UTC: `with_timezone(&Utc)`. -/
def toUtc (g : ScheduleGrid) (d : LDT) : LDT :=
  d.addSeconds (-(60 * g.offset))

/-- the `for _ in 0..50` loop of `next_scheduled_after`. -/
def searchLoop (g : ScheduleGrid) : Nat → LDT → Option LDT
  | 0, _ => none
  | n + 1, current_date =>
      match g.find_month current_date with
      | some d => some (g.toUtc d)
      | none => g.searchLoop n (set_year current_date (current_date.year + (g.year_cadence : Int)))

/-- `ScheduleGrid::next_scheduled_after` (argument and result in UTC).
Rust's `%` on `i32` is truncated remainder, `Int.tmod`. -/
def next_scheduled_after (g : ScheduleGrid) (now : LDT) : Option LDT :=
  let next_minute := now.addSeconds 60
  let nowL := truncate_to_minute (g.toLocal next_minute)
  let current_year := nowL.year
  let year_start := g.year_start
  let cadence : Int := (g.year_cadence : Int)
  let r := (current_year - year_start).tmod cadence
  let year_skip : Int :=
    if r ≤ -1 then year_start - current_year
    else if r = 0 then 0
    else cadence - r
  let current_date :=
    if year_skip = 0 then nowL
    else set_year nowL (min (current_year + year_skip) year_start)
  g.searchLoop 50 current_date

end ScheduleGrid

/-! ## Schedule (src/reminders/src/interface.rs) -/

inductive Schedule where
  | Once (whenAt : LDT)
  | Recurrent (since : LDT) (schedule : ScheduleGrid)
  | RecurrentUntil (since untilAt : LDT) (schedule : ScheduleGrid)
deriving DecidableEq, Repr

/-- chrono `Ord::max` on `DateTime<Utc>` (instant comparison; `a.max(b)`
returns `b` unless `b < a`). -/
def maxDT (a b : LDT) : LDT :=
  if b.toInstant < a.toInstant then a else b

/-- `Schedule::next_tick` (interface.rs). -/
def Schedule.next_tick : Schedule → LDT → Option LDT
  | .Once whenAt, now =>
      if now.toInstant < whenAt.toInstant then some whenAt else none
  | .Recurrent since g, now => g.next_scheduled_after (maxDT now since)
  | .RecurrentUntil since untilAt g, now =>
      (g.next_scheduled_after (maxDT now since)).filter
        (fun t => t.toInstant < untilAt.toInstant)

/-! ## Natural-language parser (src/reminders/src/text/parsing.rs)

Tokens are Lean `String`s.  Rust's `str::parse::<uN>` (all-decimal digits)
is `String.toNat?` (with the `u8` range check where the source asks for
`u8`); chrono's strict format parsers for `%H:%M[:%S]` and `%d.%m.%Y`-style
dates are modelled by splitting on the separator and validating the
fields. -/

/-- chrono `NaiveTime` (second precision). -/
structure NT where
  hour : Nat
  minute : Nat
  second : Nat
deriving DecidableEq, Repr

/-- chrono `NaiveDate`. -/
structure ND where
  year : Int
  month0 : Nat
  day0 : Nat
deriving DecidableEq, Repr

/-- the `WEEKDAYS` table (`num_days_from_monday`). -/
def weekdayLookup (s : String) : Option Nat :=
  if s = "lunedì" ∨ s = "lunedi" then some 0
  else if s = "martedì" ∨ s = "martedi" then some 1
  else if s = "mercoledì" ∨ s = "mercoledi" then some 2
  else if s = "giovedì" ∨ s = "giovedi" then some 3
  else if s = "venerdì" ∨ s = "venerdi" then some 4
  else if s = "sabato" then some 5
  else if s = "domenica" then some 6
  else none

/-- the `MONTHS` table (`number_from_month`, 1-based). -/
def monthLookup (s : String) : Option Nat :=
  if s = "gennaio" then some 1
  else if s = "febbraio" then some 2
  else if s = "marzo" then some 3
  else if s = "aprile" then some 4
  else if s = "maggio" then some 5
  else if s = "giugno" then some 6
  else if s = "luglio" then some 7
  else if s = "agosto" then some 8
  else if s = "settembre" then some 9
  else if s = "ottobre" then some 10
  else if s = "novembre" then some 11
  else if s = "dicembre" then some 12
  else none

/-- the `DURATION_UNITS` table, in seconds. -/
def durationLookup (s : String) : Option Int :=
  if s = "secondi" ∨ s = "secondo" then some 1
  else if s = "minuti" ∨ s = "minuto" then some 60
  else if s = "ore" ∨ s = "ora" then some 3600
  else if s = "giorni" ∨ s = "giorno" then some 86400
  else if s = "settimane" ∨ s = "settimana" then some 604800
  else none

/-- the `POSITIONS` table (ordinals, 0-based). -/
def positionLookup (s : String) : Option Nat :=
  if s = "primo" ∨ s = "prima" then some 0
  else if s = "secondo" ∨ s = "seconda" then some 1
  else if s = "terzo" ∨ s = "terza" then some 2
  else if s = "quarto" ∨ s = "quarta" then some 3
  else if s = "quinto" ∨ s = "quinta" then some 4
  else none

/-- digit-string value (structural; the kernel can evaluate it, unlike the
position-based core `String.toNat?`). -/
def digits_go : List Char → Nat → Option Nat
  | [], acc => some acc
  | c :: rest, acc =>
      if c.isDigit then digits_go rest (acc * 10 + (c.toNat - 48)) else none

/-- a non-empty all-decimal-digit token's value. -/
def parse_digits (cs : List Char) : Option Nat :=
  match cs with
  | [] => none
  | _ => digits_go cs 0

/-- Rust `str::parse::<u32>` (all-digit token; the `u32` bound is far above
every value the claims reach and is not modelled). -/
def natToken (s : String) : Option Nat :=
  parse_digits s.data

/-- Rust `str::parse::<u8>` (value must fit). -/
def parse_u8 (s : String) : Option Nat :=
  (natToken s).bind (fun n => if n < 256 then some n else none)

/-- Rust `str::parse::<i32>` (optional leading minus). -/
def parse_i32 (s : String) : Option Int :=
  match s.data with
  | '-' :: rest => (parse_digits rest).map (fun n => -(n : Int))
  | cs => (parse_digits cs).map (fun n => (n : Int))

/-- split a character list at a separator character. -/
def splitChar (sep : Char) : List Char → List (List Char)
  | [] => [[]]
  | c :: rest =>
      if c = sep then [] :: splitChar sep rest
      else
        match splitChar sep rest with
        | h :: t => (c :: h) :: t
        | [] => [[c]]

/-- chrono numeric field of at most two digits. -/
def field2 (cs : List Char) : Option Nat :=
  if cs.length = 1 ∨ cs.length = 2 then parse_digits cs else none

/-- `NaiveTime::from_hms_opt` -/
def from_hms (h m sec : Nat) : Option NT :=
  if h < 24 ∧ m < 60 ∧ sec < 60 then some ⟨h, m, sec⟩ else none

/-- `NaiveTime::parse_from_str` with the `TIME_FORMATS`
(`"%H:%M:%S"` then `"%H:%M"`). -/
def parse_time_tok (s : String) : Option NT :=
  match splitChar ':' s.data with
  | [h, m, sec] =>
      (field2 h).bind (fun h2 => (field2 m).bind (fun m2 =>
        (field2 sec).bind (fun s2 => from_hms h2 m2 s2)))
  | [h, m] =>
      (field2 h).bind (fun h2 => (field2 m).bind (fun m2 => from_hms h2 m2 0))
  | _ => none

/-- a `%d<sep>%m<sep>%Y` date (validated by chrono). -/
def parse_date_sep (sep : Char) (s : String) : Option ND :=
  match splitChar sep s.data with
  | [d, m, y] =>
      (field2 d).bind (fun d2 => (field2 m).bind (fun m2 =>
        (if 1 ≤ y.length ∧ y.length ≤ 4 then parse_digits y else none).bind (fun y2 =>
          if 1 ≤ m2 ∧ m2 ≤ 12 ∧ 1 ≤ d2 ∧ d2 ≤ daysInMonth (y2 : Int) (m2 - 1)
          then some ⟨(y2 : Int), m2 - 1, d2 - 1⟩ else none)))
  | _ => none

/-- `NaiveDate::parse_from_str` over the `DATE_FORMATS`
(`"%d.%m.%Y"`, `"%d-%m-%Y"`, `"%d/%m/%Y"`). -/
def parse_date_tok (s : String) : Option ND :=
  (parse_date_sep '.' s).orElse (fun _ =>
    (parse_date_sep '-' s).orElse (fun _ => parse_date_sep '/' s))

/-- peek the head token, consume it when the classifier accepts it
(the `peek().and_then(f).inspect(next)` pattern). -/
def peek_parse (f : String → Option α) : List String → Option α × List String
  | [] => (none, [])
  | t :: rest =>
      match f t with
      | some v => (some v, rest)
      | none => (none, t :: rest)

/-- `try_parse_year` -/
def try_parse_year (toks : List String) : Option Int × List String :=
  peek_parse parse_i32 toks

/-- `try_parse_month` -/
def try_parse_month (toks : List String) : Option Nat × List String :=
  peek_parse monthLookup toks

/-- `try_parse_weekday` -/
def try_parse_weekday (toks : List String) : Option Nat × List String :=
  peek_parse weekdayLookup toks

/-- `try_parse_position` -/
def try_parse_position (toks : List String) : Option Nat × List String :=
  peek_parse positionLookup toks

/-- `try_parse_day` (`u32` below 32) -/
def try_parse_day (toks : List String) : Option Nat × List String :=
  peek_parse (fun s => (natToken s).bind (fun d => if d < 32 then some d else none)) toks

/-- `parse_time` (format-based; consumes only on success). -/
def parse_time_fmt (toks : List String) : Option NT × List String :=
  peek_parse parse_time_tok toks

/-- `parse_date` (format-based; consumes only on success). -/
def parse_date_fmt (toks : List String) : Option ND × List String :=
  peek_parse parse_date_tok toks

/-- `custom_parse_time` (`HH [e MM]`); note the hour (and an `e`-minute
pair) stay consumed even when the ranges make the result `None`. -/
def custom_parse_time (toks : List String) : Option NT × List String :=
  match toks with
  | [] => (none, [])
  | h :: rest =>
      match natToken h with
      | none => (none, h :: rest)
      | some hour =>
          let step : Option Nat × List String :=
            match rest with
            | "e" :: rest1 =>
                match rest1 with
                | m :: rest2 =>
                    match natToken m with
                    | some mv => (some mv, rest2)
                    | none => (none, m :: rest2)
                | [] => (none, [])
            | _ => (none, rest)
          match (step.1.bind (fun mv => from_hms hour mv 0)).orElse
              (fun _ => from_hms hour 0 0) with
          | some t => (some t, step.2)
          | none => (none, step.2)

/-- `try_parse_time` -/
def try_parse_time (toks : List String) : Option NT × List String :=
  match parse_time_fmt toks with
  | (some t, r) => (some t, r)
  | (none, _) => custom_parse_time toks

/-! ### date-time helpers of the parser -/

namespace LDT

/-- `with_month` (1-based; chrono rejects 0 and > 12). -/
def withMonth (d : LDT) (m : Nat) : Option LDT :=
  if 1 ≤ m then d.withMonth0 (m - 1) else none

/-- `with_day` (1-based; chrono rejects 0). -/
def withDay (d : LDT) (day : Nat) : Option LDT :=
  if 1 ≤ day then d.withDay0 (day - 1) else none

end LDT

/-- `set_time(time, when)` -/
def set_time (t : NT) (whenAt : LDT) : Option LDT :=
  ((whenAt.withSecond t.second).bind (fun d => d.withMinute t.minute)).bind
    (fun d => d.withHour t.hour)

/-- parser `set_year` (`with_year(year).unwrap_or(when)`). -/
def set_year_p (year : Int) (whenAt : LDT) : LDT :=
  (whenAt.withYear year).getD whenAt

/-- `truncated_by_day` -/
def truncated_by_day (d : LDT) : LDT :=
  { d with hour := 0, minute := 0, second := 0 }

/-- `try_set_time` -/
def try_set_time (t : Option NT) (whenAt : LDT) (lower_bound : LDT) : LDT :=
  (t.bind (fun time =>
    ((set_time time whenAt).filter
        (fun date => lower_bound.toInstant ≤ date.toInstant)).orElse
      (fun _ => set_time time (whenAt.addSeconds 86400)))).getD whenAt

/-- `days_of_month0` (length of the month via first-day differences). -/
def days_of_month0 (year : Int) (month : Nat) : Int :=
  daysFromCivil (year + ((month : Int) + 2) / 12) ((month + 1) % 12) 0 -
    daysFromCivil year month 0

/-- `days_of_year` -/
def days_of_year (year : Int) : Int :=
  daysFromCivil (year + 1) 0 0 - daysFromCivil year 0 0

/-- `next_month` (`when + Duration::days(days_of_month0(y, m0))`). -/
def next_month (whenAt : LDT) : LDT :=
  whenAt.addSeconds (86400 * days_of_month0 whenAt.year whenAt.month0)

/-- `next_year` -/
def next_year (whenAt : LDT) : LDT :=
  whenAt.addSeconds (86400 * days_of_year whenAt.year)

/-- `next_weekday` (the release-mode `u32` wrap-around of
`(next - current + 7) % 7` equals the intended modular difference). -/
def next_weekday (weekday : Nat) (whenAt : LDT) : LDT :=
  whenAt.addSeconds (86400 * (((weekday + 7 - whenAt.weekdayFromMonday) % 7 : Nat) : Int))

/-- `try_set_day` -/
def try_set_day (day : Option Nat) (whenAt : LDT) (lower_bound : LDT) : LDT :=
  (day.bind (fun d =>
    ((whenAt.withDay d).filter (fun date => lower_bound.toInstant ≤ date.toInstant)).orElse
      (fun _ => (next_month whenAt).withDay d))).getD whenAt

/-- `try_set_month` -/
def try_set_month (month : Option Nat) (whenAt : LDT) (lower_bound : LDT) : LDT :=
  (month.bind (fun m =>
    ((whenAt.withMonth m).filter (fun date => lower_bound.toInstant ≤ date.toInstant)).orElse
      (fun _ => (next_year whenAt).withMonth m))).getD whenAt

/-- `at_time` -/
def at_time (lower_bound whenAt : LDT) (toks : List String) : LDT × List String :=
  let p := try_parse_time toks
  (try_set_time p.1 whenAt lower_bound, p.2)

/-- `at_year` -/
def at_year (whenAt : LDT) (toks : List String) : LDT × List String :=
  let p := try_parse_year toks
  ((p.1.bind (fun y => whenAt.withYear y)).getD whenAt, p.2)

/-- `at_month` -/
def at_month (whenAt : LDT) (toks : List String) : LDT × List String :=
  let p := try_parse_month toks
  match p.1.bind (fun m => whenAt.withMonth m) with
  | some date => at_year date p.2
  | none => (whenAt, p.2)

/-- `at_beginning_of_year` -/
def at_beginning_of_year (whenAt : LDT) (toks : List String) : LDT × List String :=
  let p := try_parse_year toks
  ((p.1.bind (fun year =>
      ((whenAt.withMonth0 0).bind (fun d => d.withDay0 0)).map
        (fun d => set_year_p year d))).getD whenAt,
   p.2)

/-- `configure_weekday` -/
def configure_weekday (whenAt : LDT) (toks : List String) : LDT × List String :=
  let p := try_parse_weekday toks
  ((p.1.map (fun w => next_weekday w whenAt)).getD whenAt, p.2)

/-- `at_date` -/
def at_date (lower_bound whenAt : LDT) (toks : List String) : LDT × List String :=
  let pd := parse_date_fmt toks
  match pd.1.bind (fun date =>
      ((whenAt.withYear date.year).bind (fun d => d.withMonth0 date.month0)).bind
        (fun d => d.withDay0 date.day0)) with
  | some d => (d, pd.2)
  | none =>
      let pday := try_parse_day pd.2
      match pday.1 with
      | none => (whenAt, pday.2)
      | some day =>
          let pmon := try_parse_month pday.2
          match pmon.1 with
          | none => (try_set_day (some day) whenAt lower_bound, pmon.2)
          | some month =>
              let pyear := try_parse_year pmon.2
              match pyear.1 with
              | none =>
                  ((((try_set_month (some month) whenAt lower_bound).withDay 1).map
                      (fun d => try_set_day (some day) d lower_bound)).getD whenAt,
                   pyear.2)
              | some year =>
                  (((((set_year_p year whenAt).withMonth 1).map
                        (fun d => try_set_month (some month) d lower_bound)).bind
                      (fun d => d.withDay 1)).map
                      (fun d => try_set_day (some day) d lower_bound) |>.getD whenAt,
                   pyear.2)

/-- `advance_time` (`tra N <unit> [e N <unit>]*`; the recursion consumes at
least two tokens per step, bounded here by fuel). -/
def advance_time : Nat → LDT → List String → LDT × List String
  | 0, whenAt, toks => (whenAt, toks)
  | _ + 1, whenAt, [] => (whenAt, [])
  | fuel + 1, whenAt, q :: rest =>
      match parse_i32 q with
      | none => (whenAt, q :: rest)
      | some quantity =>
          match rest with
          | [] => (whenAt, [])
          | u :: rest2 =>
              match durationLookup u with
              | none => (whenAt, u :: rest2)
              | some dur =>
                  let d := whenAt.addSeconds (dur * quantity)
                  let rest3 := match rest2 with
                    | "e" :: r => r
                    | _ => rest2
                  advance_time fuel d rest3

/-- `at_date_or_year` (a bare integer above 1970 is a year; note the
source sets `year + 1` and truncates to the day). -/
def at_date_or_year (date : LDT) (lower_bound : LDT) (toks : List String) :
    LDT × List String :=
  let p := peek_parse
    (fun s => (parse_i32 s).bind (fun y => if 1970 < y then some y else none)) toks
  match p.1 with
  | some year => (truncated_by_day (set_year_p (year + 1) date), p.2)
  | none => at_date lower_bound date toks

/-- `at_month_or_weekday` -/
def at_month_or_weekday (date : LDT) (toks : List String) : LDT × List String :=
  let p := try_parse_weekday toks
  match p.1 with
  | some weekday => (next_weekday weekday date, p.2)
  | none => at_month date toks

/-- `build_once`'s token loop (each iteration consumes the head token). -/
def build_once_go (now : LDT) : Nat → List String → LDT → LDT
  | 0, _, whenAt => whenAt
  | _ + 1, [], whenAt => whenAt
  | fuel + 1, token :: rest, whenAt =>
      let p : LDT × List String :=
        if token = "tra" then advance_time (rest.length + 1) whenAt rest
        else if token = "alle" then at_time now whenAt rest
        else if token = "il" ∨ token = "lo" ∨ token = "l" then at_date now whenAt rest
        else if token = "a" ∨ token = "ad" then at_month whenAt rest
        else if token = "nel" then at_beginning_of_year whenAt rest
        else
          match weekdayLookup token with
          | some _ => configure_weekday whenAt rest
          | none => (whenAt, rest)
      build_once_go now fuel p.2 p.1

/-- `build_once` (the result goes back to UTC through the offset). -/
def build_once (off : Int) (toks : List String) (now : LDT) : Option Schedule :=
  some (.Once ((build_once_go now toks.length toks now).addSeconds (-(60 * off))))

/-! ### the Recurrent branch: `ScheduleGridBuilder` (interface.rs) and the
`set_*` token handlers -/

/-- `ScheduleGridBuilder::new` (all bitmaps full — the hour one of width 60
like the source —, cadence 1, year 1970). `build` is the identity into
`ScheduleGrid`. -/
def builder_new (off : Int) : ScheduleGrid where
  minutes := Bitmap.all_set 60
  hours := Bitmap.all_set 60
  weeks_of_month := Bitmap.all_set 5
  days_of_month := Bitmap.all_set 31
  days_of_week := Bitmap.all_set 7
  months_of_year := Bitmap.all_set 12
  year_cadence := 1
  year_start := 1970
  offset := off

namespace ScheduleGrid

/-- `with_hours` (clear, then set). -/
def with_hours (b : ScheduleGrid) (hs : List Nat) : ScheduleGrid :=
  { b with hours := hs.foldl (fun bm h => bm.set h) b.hours.clear }

/-- `with_minutes` -/
def with_minutes (b : ScheduleGrid) (ms : List Nat) : ScheduleGrid :=
  { b with minutes := ms.foldl (fun bm m => bm.set m) b.minutes.clear }

/-- `with_times` -/
def with_times (b : ScheduleGrid) (ts : List NT) : ScheduleGrid :=
  (b.with_hours (ts.map (fun t => t.hour))).with_minutes (ts.map (fun t => t.minute))

/-- `with_weeks_of_month` -/
def with_weeks_of_month (b : ScheduleGrid) (ws : List Nat) : ScheduleGrid :=
  { b with weeks_of_month := ws.foldl (fun bm w => bm.set w) b.weeks_of_month.clear }

/-- `with_weekdays` (already `num_days_from_monday`). -/
def with_weekdays (b : ScheduleGrid) (ws : List Nat) : ScheduleGrid :=
  { b with days_of_week := ws.foldl (fun bm w => bm.set w) b.days_of_week.clear }

/-- `with_year` -/
def with_year (b : ScheduleGrid) (y : Int) : ScheduleGrid :=
  { b with year_start := y }

/-- `with_months` (1-based month numbers; `number_from_month() - 1`). -/
def with_months (b : ScheduleGrid) (ms : List Nat) : ScheduleGrid :=
  { b with months_of_year := ms.foldl (fun bm m => bm.set (m - 1)) b.months_of_year.clear }

/-- `with_days_of_month` (`(day - 1) as usize` on a `u8`: day 0 wraps to
255 in release builds). -/
def with_days_of_month (b : ScheduleGrid) (ds : List Nat) : ScheduleGrid :=
  { b with days_of_month := ds.foldl (fun bm d => bm.set ((d + 255) % 256)) b.days_of_month.clear }

/-- `with_year_cadence` (`year.max(1)`). -/
def with_year_cadence (b : ScheduleGrid) (c : Nat) : ScheduleGrid :=
  { b with year_cadence := max c 1 }

end ScheduleGrid

/-- skip a run of `"e"` separator tokens. -/
def skip_e : List String → List String
  | "e" :: rest => skip_e rest
  | l => l

/-- the `iter::from_fn(try_parse_position … skip e)` collector: the `e`-run
after each attempt is consumed even when the attempt fails. -/
def collect_positions : Nat → List String → List Nat × List String
  | 0, toks => ([], toks)
  | fuel + 1, toks =>
      let p := try_parse_position toks
      let r := skip_e p.2
      match p.1 with
      | none => ([], r)
      | some pos =>
          let q := collect_positions fuel r
          (pos :: q.1, q.2)

/-- the weekday collector of `set_weekday_schedule`. -/
def collect_weekdays : Nat → List String → List Nat × List String
  | 0, toks => ([], toks)
  | fuel + 1, toks =>
      let p := try_parse_weekday toks
      let r := skip_e p.2
      match p.1 with
      | none => ([], r)
      | some w =>
          let q := collect_weekdays fuel r
          (w :: q.1, q.2)

/-- the month collector of `set_month_schedule`. -/
def collect_months : Nat → List String → List Nat × List String
  | 0, toks => ([], toks)
  | fuel + 1, toks =>
      let p := try_parse_month toks
      let r := skip_e p.2
      match p.1 with
      | none => ([], r)
      | some m =>
          let q := collect_months fuel r
          (m :: q.1, q.2)

/-- the `u8` collector of `set_numeric_schedule`. -/
def collect_numbers : Nat → List String → List Nat × List String
  | 0, toks => ([], toks)
  | fuel + 1, toks =>
      let p := peek_parse parse_u8 toks
      let r := skip_e p.2
      match p.1 with
      | none => ([], r)
      | some n =>
          let q := collect_numbers fuel r
          (n :: q.1, q.2)

/-- the time collector of `set_time_schedule` (a failing attempt may still
consume, see `custom_parse_time`). -/
def collect_times : Nat → List String → List NT × List String
  | 0, toks => ([], toks)
  | fuel + 1, toks =>
      match try_parse_time toks with
      | (some t, r) =>
          let q := collect_times fuel r
          (t :: q.1, q.2)
      | (none, r) => ([], r)

/-- `set_time_schedule` -/
def set_time_schedule (b : ScheduleGrid) (toks : List String) :
    ScheduleGrid × List String :=
  let p := collect_times (toks.length + 1) toks
  (b.with_times p.1, p.2)

/-- `set_weekday_schedule` -/
def set_weekday_schedule (b : ScheduleGrid) (toks : List String) :
    ScheduleGrid × List String :=
  let p := collect_positions (toks.length + 1) toks
  let b1 := if p.1 = [] then b else b.with_weeks_of_month p.1
  let q := collect_weekdays (p.2.length + 1) p.2
  let b2 := if q.1 = [] then b1 else b1.with_weekdays q.1
  (b2, q.2)

/-- `set_month_schedule` (note: an empty collection still clears the month
bitmap). -/
def set_month_schedule (b : ScheduleGrid) (toks : List String) :
    ScheduleGrid × List String :=
  let p := collect_months (toks.length + 1) toks
  (b.with_months p.1, p.2)

/-- `set_numeric_schedule` -/
def set_numeric_schedule (b : ScheduleGrid) (toks : List String) :
    ScheduleGrid × List String :=
  let p := collect_numbers (toks.length + 1) toks
  match p.2 with
  | "anni" :: rest => (b.with_year_cadence ((p.1.getLast?).getD 1), rest)
  | "del" :: rest =>
      match rest with
      | "mese" :: rest2 => (b.with_days_of_month p.1, rest2)
      | _ => (b, rest)
  | "di" :: rest => set_month_schedule (b.with_days_of_month p.1) rest
  | rest => (b, rest)

/-- split on any of `. / -` (Rust `split(&['.', '/', '-'][..])`). -/
def splitAnySep : List Char → List (List Char)
  | [] => [[]]
  | c :: rest =>
      if c = '.' ∨ c = '/' ∨ c = '-' then [] :: splitAnySep rest
      else
        match splitAnySep rest with
        | h :: t => (c :: h) :: t
        | [] => [[c]]

/-- a zero-trimmed piece read as `u8`. -/
def piece_u8 (cs : List Char) : Option Nat :=
  (parse_digits (cs.dropWhile (fun c => c = '0'))).bind
    (fun n => if n < 256 then some n else none)

/-- `set_date_schedule` (`D<sep>M`; pieces are zero-trimmed `u8`s). -/
def set_date_schedule (b : ScheduleGrid) (toks : List String) :
    ScheduleGrid × List String :=
  match toks with
  | [] => (b, [])
  | t :: rest =>
      let pieces := (splitAnySep t.data).filterMap piece_u8
      if 2 ≤ pieces.length then
        let day := pieces.getD 0 0
        let month := pieces.getD 1 0
        let b1 := b.with_days_of_month [day]
        let b2 := if 1 ≤ month ∧ month ≤ 12 then b1.with_months [month] else b1
        (b2, rest)
      else (b, rest)

/-- `set_fittest_schedule` (consumes nothing on an unclassifiable token —
the Rust caller then loops forever; fuel makes the model total). -/
def set_fittest_schedule (b : ScheduleGrid) (toks : List String) :
    ScheduleGrid × List String :=
  match toks with
  | [] => (b, [])
  | x :: _ =>
      if (monthLookup x).isSome then set_month_schedule b toks
      else if x.data.any (fun c => c = '.' ∨ c = '/' ∨ c = '-') then set_date_schedule b toks
      else if (natToken x).isSome then set_numeric_schedule b toks
      else (b, toks)

/-- `set_schedule`'s stop keywords. -/
def scheduleStops : List String :=
  ["fino", "al", "all", "a", "ad", "dal", "da", "dall", "alle", "ogni"]

/-- `set_schedule` -/
def set_schedule : Nat → ScheduleGrid → List String → ScheduleGrid × List String
  | 0, b, toks => (b, toks)
  | _ + 1, b, [] => (b, [])
  | fuel + 1, b, token :: rest =>
      if token ∈ scheduleStops then (b, token :: rest)
      else if (positionLookup token).isSome ∨ (weekdayLookup token).isSome then
        let p := set_weekday_schedule b (token :: rest)
        set_schedule fuel p.1 p.2
      else if token = "di" then set_schedule fuel b rest
      else
        let p := set_fittest_schedule b (token :: rest)
        set_schedule fuel p.1 p.2

/-- `set_until`'s inner loop (`new_until` accumulation). -/
def set_until_go (since : LDT) : Nat → LDT → List String → LDT × List String
  | 0, acc, toks => (acc, toks)
  | _ + 1, acc, [] => (acc, [])
  | fuel + 1, acc, token :: rest =>
      if token = "alle" then
        let p := at_time since acc rest
        set_until_go since fuel p.1 p.2
      else if token = "al" ∨ token = "allo" ∨ token = "all" then
        let p := at_date_or_year acc since rest
        set_until_go since fuel p.1 p.2
      else if token = "a" ∨ token = "ad" then
        let p := at_month_or_weekday acc rest
        set_until_go since fuel p.1 p.2
      else (acc, token :: rest)

/-- `set_until` -/
def set_until (since : LDT) (toks : List String) : LDT × List String :=
  set_until_go since (toks.length + 1) since toks

/-- `set_since`'s inner loop. -/
def set_since_go (now : LDT) : Nat → LDT → List String → LDT × List String
  | 0, acc, toks => (acc, toks)
  | _ + 1, acc, [] => (acc, [])
  | fuel + 1, acc, token :: rest =>
      if token = "dalle" then
        let p := at_time now acc rest
        set_since_go now fuel p.1 p.2
      else if token = "dal" ∨ token = "dallo" ∨ token = "dall" then
        let p := at_date_or_year acc now rest
        set_since_go now fuel p.1 p.2
      else if token = "da" then
        let p := at_month_or_weekday acc rest
        set_since_go now fuel p.1 p.2
      else (acc, token :: rest)

/-- `set_since` -/
def set_since (since now : LDT) (toks : List String) : LDT × List String :=
  set_since_go now (toks.length + 1) since toks

/-- `build_recurrent`'s token loop over `(since, until, builder)`. -/
def build_recurrent_go (now : LDT) :
    Nat → List String → LDT × Option LDT × ScheduleGrid → LDT × Option LDT × ScheduleGrid
  | 0, _, st => st
  | _ + 1, [], st => st
  | fuel + 1, token :: rest, (since, untilO, b) =>
      if token = "ogni" then
        let p := set_schedule (rest.length + 1) b rest
        build_recurrent_go now fuel p.2 (since, untilO, p.1)
      else if token = "al" ∨ token = "all" ∨ token = "allo" ∨ token = "a" ∨ token = "ad" then
        let p := set_until since (token :: rest)
        build_recurrent_go now fuel p.2 (since, some p.1, b)
      else if token = "dal" ∨ token = "da" ∨ token = "dall" then
        let p := set_since since now (token :: rest)
        build_recurrent_go now fuel p.2 (p.1, untilO, b)
      else if token = "alle" then
        let p := set_time_schedule b rest
        build_recurrent_go now fuel p.2 (since, untilO, p.1)
      else build_recurrent_go now fuel rest (since, untilO, b)

/-- `build_recurrent` -/
def build_recurrent (off : Int) (toks : List String) (now : LDT) : Option Schedule :=
  let b0 := (builder_new off).with_times [⟨now.hour, now.minute, now.second⟩]
  let st := build_recurrent_go now (toks.length + 1) toks (now, none, b0)
  let b1 := st.2.2.with_year st.1.year
  some (match st.2.1 with
    | none => .Recurrent (st.1.addSeconds (-(60 * off))) b1
    | some u =>
        .RecurrentUntil (st.1.addSeconds (-(60 * off))) (u.addSeconds (-(60 * off))) b1)

/-! ### dispatch (`try_parse` / `dispatch_category`) -/

def onceKeywords : List String :=
  ["alle", "a", "il", "lo", "l", "nel", "ad", "tra"]

def recurrentKeywords : List String :=
  ["ogni", "fino", "dal", "dall", "da"]

/-- `dispatch_category` (the context is `now` in the Europe/Rome zone,
modelled by the offset `off`). -/
def dispatch_category (toks : List String) (now : LDT) (off : Int) : Option Schedule :=
  let context := now.addSeconds (60 * off)
  match toks.head? with
  | none => none
  | some x =>
      if (weekdayLookup x).isSome then build_once off toks context
      else if x ∈ recurrentKeywords then build_recurrent off toks context
      else if x ∈ onceKeywords then build_once off toks context
      else none

/-- `try_parse` (drops the leading command token). -/
def try_parse (toks : List String) (now : LDT) (off : Int) : Option Schedule :=
  dispatch_category (toks.drop 1) now off

/-- the tokens whose appearance right after the command word sends
`dispatch_category` into the Once branch: the Once keywords and the
Italian weekday names. -/
def onceStarters : List String :=
  ["alle", "a", "ad", "il", "lo", "l", "nel", "tra",
   "lunedì", "lunedi", "martedì", "martedi", "mercoledì", "mercoledi",
   "giovedì", "giovedi", "venerdì", "venerdi", "sabato", "domenica"]

/-- a token no rule of the Once branch recognises: not a loop keyword, not
a weekday or month name, not numeric, and not in a time or date format. -/
def Unrec (t : String) : Prop :=
  t ∉ (["tra", "alle", "il", "lo", "l", "a", "ad", "nel"] : List String) ∧
    weekdayLookup t = none ∧ monthLookup t = none ∧
    natToken t = none ∧ parse_i32 t = none ∧
    parse_time_tok t = none ∧ parse_date_tok t = none

instance : DecidablePred Unrec := by
  intro t
  unfold Unrec
  infer_instance

/-! ## Reminder records (src/reminders/src/interface.rs, memory/transient.rs) -/

/-- `ReminderDefinition` (`u64` user id as `Nat`, `i32` reminder id as `Int`). -/
structure ReminderDefinition where
  schedule : Schedule
  user_id : Nat
  message : String
deriving DecidableEq, Repr

/-- `ReminderDefinition::next_tick` -/
def ReminderDefinition.next_tick (d : ReminderDefinition) (now : LDT) : Option LDT :=
  d.schedule.next_tick now

/-- `Reminder` snapshot (interface.rs). -/
structure Reminder where
  user_id : Nat
  id : Int
  current_tick : Option LDT
  message : String
deriving DecidableEq, Repr

/-- `ReminderState` (memory/transient.rs). -/
structure ReminderState where
  id : Int
  definition : ReminderDefinition
  current_tick : Option LDT
  defused : Bool
deriving DecidableEq, Repr

namespace ReminderState

/-- `ReminderState::fast_forward_after`
(`self.current_tick.and_then(|_| self.definition.next_tick(then))`). -/
def fast_forward_after (st : ReminderState) (thenAt : LDT) : ReminderState :=
  { st with current_tick := st.current_tick.bind (fun _ => st.definition.next_tick thenAt) }

/-- `ReminderState::defuse` -/
def defuseState (st : ReminderState) : ReminderState :=
  { st with defused := true }

/-- `ReminderState::current_tick()` — observes `None` when defused. -/
def current_tick_obs (st : ReminderState) : Option LDT :=
  if st.defused then none else st.current_tick

/-- `ReminderState::reminder_id` -/
def reminder_id (st : ReminderState) : Nat × Int :=
  (st.definition.user_id, st.id)

/-- `ReminderState::is_active` — the source tests
`self.current_tick.is_some() && self.defused` (no negation on `defused`). -/
def is_active (st : ReminderState) : Bool :=
  st.current_tick.isSome && st.defused

end ReminderState

/-! ## Association-list view of the two-level `{user_id -> {id -> state}}` index -/

abbrev Lookup := List ((Nat × Int) × ReminderState)

def lookupFind (l : Lookup) (k : Nat × Int) : Option ReminderState :=
  (l.find? (fun p => decide (p.1 = k))).map (fun p => p.2)

def lookupInsert (l : Lookup) (k : Nat × Int) (v : ReminderState) : Lookup :=
  if (l.find? (fun p => decide (p.1 = k))).isSome then
    l.map (fun p => if p.1 = k then (k, v) else p)
  else (k, v) :: l

def lookupRemove (l : Lookup) (k : Nat × Int) : Lookup :=
  l.filter (fun p => decide (¬ p.1 = k))

/-- `InMemoryStorage` (memory/transient.rs): the heap shares the state cells
with the index; the model keeps the index authoritative and the heap as the
list of referenced keys. -/
structure InMemoryStorage where
  queue : List (Nat × Int)
  lookup : Lookup
deriving DecidableEq, Repr

namespace InMemoryStorage

/-- `InMemoryStorage::internal_insert` (index insert + heap push). -/
def internal_insert (s : InMemoryStorage) (st : ReminderState) : InMemoryStorage :=
  { queue := st.reminder_id :: s.queue
    lookup := lookupInsert s.lookup st.reminder_id st }

/-- `InMemoryStorage::reinsert_reminder` acting on the state cell referenced
by key `k` (the popped `Rc`): fast-forward the shared cell, then branch on
`is_active`: inactive states are removed from the index, active ones pushed
back (the defensive `none` arm is unreachable in the Rust, where the `Rc`
always designates a live cell). -/
def reinsert_reminder (s : InMemoryStorage) (k : Nat × Int) (thenAt : LDT) :
    InMemoryStorage :=
  match lookupFind s.lookup k with
  | none => s
  | some st =>
      let st' := st.fast_forward_after thenAt
      match st'.is_active with
      | false => { s with lookup := lookupRemove s.lookup k }
      | true => internal_insert { s with lookup := lookupInsert s.lookup k st' } st'

/-- `InMemoryStorage::defuse` (sets the flag on the shared cell if present). -/
def defuse_mem (s : InMemoryStorage) (u : Nat) (id : Int) : InMemoryStorage :=
  { s with
      lookup := s.lookup.map (fun p => if p.1 = (u, id) then (p.1, p.2.defuseState) else p) }

/-- `InMemoryStorage::insert` + `internal_insert_new`: `None` when the
schedule is already expired; otherwise draw ids from the RNG stream until
one does not collide in the user's map (`None` also models the Rust's
forever-loop on an exhausted stream, which no claim reaches). -/
def insertOp (s : InMemoryStorage) (defn : ReminderDefinition) (now : LDT)
    (rng : List Int) : Option (Int × InMemoryStorage) :=
  match defn.next_tick now with
  | none => none
  | some d =>
      match rng.find? (fun id => (lookupFind s.lookup (defn.user_id, id)).isNone) with
      | none => none
      | some id =>
          some (id, internal_insert s
            { id := id, definition := defn, current_tick := some d, defused := false })

end InMemoryStorage

/-! ## ReminderEngine `add` / `defuse` (interface.rs), with the durable
store's outcomes (`create`/`delete` success) as boolean oracles. -/

/-- `ReminderEngine::add`: in-memory insert first (`?` returns `None` on an
expired schedule); on durable-create failure defuse the fresh insert and
return `None`. -/
def engine_add (s : InMemoryStorage) (defn : ReminderDefinition) (now : LDT)
    (rng : List Int) (createOk : Bool) : Option Int × InMemoryStorage :=
  match s.insertOp defn now rng with
  | none => (none, s)
  | some (id, s1) =>
      if createOk then (some id, s1)
      else (none, s1.defuse_mem defn.user_id id)

/-- `ReminderEngine::defuse`: durable delete first; only on success touch
memory. -/
def engine_defuse (s : InMemoryStorage) (u : Nat) (id : Int) (deleteOk : Bool) :
    Bool × InMemoryStorage :=
  if deleteOk then (true, s.defuse_mem u id) else (false, s)

/-! ## The engine loop (interface.rs `run`) over the spec-modelled storage
operations.

`ReminderEngine::run` calls `dequeue_next()` and `advance(reminder, now)` on
the in-memory storage; neither method exists in the sources (transient.rs
offers `pop_state`/`reinsert_reminder` with a different signature), so both
are modelled from the spec. -/

/-- Heap entry per spec §3: `{user_id, id, next_tick}`. -/
structure HeapEntry where
  user_id : Nat
  id : Int
  next_tick : LDT
deriving DecidableEq, Repr

/-- The engine-loop view of storage: min-heap of `HeapEntry` plus the index. -/
structure EngineStorage where
  queue : List HeapEntry
  lookup : Lookup
deriving DecidableEq, Repr

namespace EngineStorage

/-- pop the entry with the smallest tick (leftmost among ties). -/
def popMin : List HeapEntry → Option (HeapEntry × List HeapEntry)
  | [] => none
  | e :: rest =>
      match popMin rest with
      | none => some (e, [])
      | some (m, rest') =>
          if e.next_tick.toInstant ≤ m.next_tick.toInstant then some (e, rest)
          else some (m, e :: rest')

/-- Modelled from the spec: `InMemoryStorage::dequeue_next` — "pop the heap
entry with the smallest tick; if the referenced state still exists and is
not defused, return a `Reminder` snapshot; otherwise loop and pop the next"
(§4.5).  Fuel bounds the skip loop by the queue length. -/
def dequeue_go : Nat → EngineStorage → Option (Reminder × EngineStorage)
  | 0, _ => none
  | fuel + 1, s =>
      match popMin s.queue with
      | none => none
      | some (e, rest) =>
          match lookupFind s.lookup (e.user_id, e.id) with
          | some st =>
              if st.defused then dequeue_go fuel { s with queue := rest }
              else some
                ({ user_id := e.user_id, id := e.id,
                   current_tick := st.current_tick, message := st.definition.message },
                 { s with queue := rest })
          | none => dequeue_go fuel { s with queue := rest }

def dequeue_next (s : EngineStorage) : Option (Reminder × EngineStorage) :=
  dequeue_go (s.queue.length + 1) s

/-- Modelled from the spec: `InMemoryStorage::advance` — "look up the state;
compute the next tick strictly after `then` using the schedule; if it
exists, update `current_tick` and push a new heap entry; if it does not,
remove the state from the index" (§4.5). -/
def advance (s : EngineStorage) (rem : Reminder) (thenAt : LDT) : EngineStorage :=
  match lookupFind s.lookup (rem.user_id, rem.id) with
  | none => s
  | some st =>
      match st.definition.next_tick thenAt with
      | some d =>
          { queue := { user_id := rem.user_id, id := rem.id, next_tick := d } :: s.queue
            lookup := lookupInsert s.lookup (rem.user_id, rem.id)
              { st with current_tick := some d } }
      | none => { s with lookup := lookupRemove s.lookup (rem.user_id, rem.id) }

/-- `InMemoryStorage::defuse` on the engine-loop view. -/
def defuseE (s : EngineStorage) (u : Nat) (id : Int) : EngineStorage :=
  { s with
      lookup := s.lookup.map (fun p => if p.1 = (u, id) then (p.1, p.2.defuseState) else p) }

end EngineStorage

/-- what the loop body observes while sleeping: the sleep elapses (fire) or
a wake-up arrives (re-enter idle without firing); `Stop` terminates and
fires nothing. -/
inductive LoopEvent where
  | elapsed
  | wake
deriving DecidableEq, Repr

/-- one iteration of `ReminderEngine::run`: dequeue; if a reminder with a
tick was obtained, fire the callback only when the sleep elapsed; in both
cases re-insert through `advance(reminder, now)`.  Returns the storage and
the `(user, id)` pairs passed to the callback. -/
def engine_step (s : EngineStorage) (now : LDT) (ev : LoopEvent) :
    EngineStorage × List (Nat × Int) :=
  match s.dequeue_next with
  | none => (s, [])
  | some (rem, s1) =>
      let fired :=
        match ev, rem.current_tick with
        | .elapsed, some _ => [(rem.user_id, rem.id)]
        | _, _ => []
      (s1.advance rem now, fired)

/-- a run of the loop over a trace of (current time, sleep outcome) pairs. -/
def engine_run : List (LDT × LoopEvent) → EngineStorage → EngineStorage × List (Nat × Int)
  | [], s => (s, [])
  | (now, ev) :: rest, s =>
      let p := engine_step s now ev
      let q := engine_run rest p.1
      (q.1, p.2 ++ q.2)

/-! ## Concrete grids used by the analyses -/

/-- A grid firing at 00:00 of every 30th day of a month that falls on a
Thursday (day-of-week bitmap `: Thursday only`), UTC. -/
def thuGrid : ScheduleGrid :=
  ScheduleGrid.explicitly_new [0] [0] [0, 1, 2, 3, 4] [29] [3]
    [0, 1, 2, 3, 4, 5, 6, 7, 8, 9, 10, 11] 1 1970 0

/-- An unconstrained grid (all calendar bitmaps full) with a two-year
cadence anchored at 2025, UTC. -/
def cadence2Grid : ScheduleGrid :=
  ScheduleGrid.explicitly_new (List.range 60) (List.range 60) [0, 1, 2, 3, 4]
    (List.range 31) [0, 1, 2, 3, 4, 5, 6] (List.range 12) 2 2025 0

/-- The impossible "February 30th" grid: day-of-month bitmap holds only
day0 = 29 (the 30th), month bitmap holds only February. -/
def feb30Grid : ScheduleGrid :=
  ScheduleGrid.explicitly_new (List.range 60) (List.range 60) [0, 1, 2, 3, 4]
    [29] [0, 1, 2, 3, 4, 5, 6] [1] 1 1970 0

/-- A grid with every calendar bitmap full (fires every minute), UTC. -/
def everyMinuteGrid : ScheduleGrid :=
  ScheduleGrid.explicitly_new (List.range 60) (List.range 60) [0, 1, 2, 3, 4]
    (List.range 31) [0, 1, 2, 3, 4, 5, 6] (List.range 12) 1 1970 0

/-! ## Concrete storage fixtures -/

def demoDef : ReminderDefinition :=
  { schedule := .Recurrent ⟨2024, 0, 0, 0, 0, 0⟩ everyMinuteGrid
    user_id := 1
    message := "m" }

/-- a live (non-defused) state with a pending tick. -/
def demoState : ReminderState :=
  { id := 7, definition := demoDef, current_tick := some ⟨2024, 7, 16, 12, 0, 0⟩,
    defused := false }

/-- the same state, defused. -/
def demoStateDefused : ReminderState :=
  { demoState with defused := true }

/-- storage whose heap entry for `demoState` has just been popped. -/
def demoStorage : InMemoryStorage :=
  { queue := [], lookup := [((1, 7), demoState)] }

def demoStorageDefused : InMemoryStorage :=
  { queue := [], lookup := [((1, 7), demoStateDefused)] }

/-- engine-loop storage holding the live `demoState` and its heap entry. -/
def demoEngineStorage : EngineStorage :=
  { queue := [{ user_id := 1, id := 7, next_tick := ⟨2024, 7, 16, 12, 0, 0⟩ }]
    lookup := [((1, 7), demoState)] }

/-- a definition with a one-shot future schedule, for the insert fixtures. -/
def onceDef : ReminderDefinition :=
  { schedule := .Once ⟨2024, 7, 16, 12, 0, 0⟩, user_id := 1, message := "o" }

def emptyStorage : InMemoryStorage :=
  { queue := [], lookup := [] }

/-- the storage after a successful insert of `onceDef` with id 5 at
2024-08-17T10:00:00Z. -/
def onceInserted : InMemoryStorage :=
  emptyStorage.internal_insert
    { id := 5, definition := onceDef, current_tick := some ⟨2024, 7, 16, 12, 0, 0⟩,
      defused := false }

/-! ## The "ogni venerdì" scenario (spec §8, seed test 4) -/

/-- the tokenised command of the scenario. -/
def fridayTokens : List String :=
  ["ricordami", "ogni", "venerdì", "alle", "18", "dal", "29", "agosto", "al",
   "26", "ottobre"]

/-- `now` of the scenario: 2024-08-17T20:58:00+02:00, i.e. 18:58 UTC. -/
def fridayNow : LDT := ⟨2024, 7, 16, 18, 58, 0⟩

/-- the grid the parser builds for the scenario: minute 0, hour 18,
Friday only, everything else full, cadence 1 anchored 2024, Rome summer
offset (+120 minutes). -/
def fridayGrid : ScheduleGrid :=
  { minutes := .longs [1], hours := .longs [262144], weeks_of_month := .byte 31,
    days_of_month := .int 2147483647, days_of_week := .byte 16,
    months_of_year := .short 4095, year_cadence := 1, year_start := 2024,
    offset := 120 }

/-- the parsed schedule: recurrent from 2024-08-29T18:58Z until
2024-10-26T18:58Z over `fridayGrid`. -/
def fridaySched : Schedule :=
  .RecurrentUntil ⟨2024, 7, 28, 18, 58, 0⟩ ⟨2024, 9, 25, 18, 58, 0⟩ fridayGrid

/-- value denoted by a little-endian byte list. -/
def Bitmap.le_val : List Nat → Nat
  | [] => 0
  | b :: rest => b + 256 * Bitmap.le_val rest

/-- the per-key suppression invariant: every state stored under `(u, id)`
is defused. -/
def DefusedAt (s : EngineStorage) (u : Nat) (id : Int) : Prop :=
  ∀ st, lookupFind s.lookup (u, id) = some st → st.defused = true

end Ambrogio

/-! ## Theorems -/

namespace Ambrogio

namespace Bitmap

theorem lor_shift_add (a b : Nat) (k : Nat) (h : a < 2 ^ k) :
    a ||| (b <<< k) = a + 2 ^ k * b := by
  rw [Nat.shiftLeft_eq, Nat.mul_comm b (2 ^ k), Nat.lor_comm,
    ← Nat.mul_add_lt_is_or h, Nat.add_comm]

theorem fold_le_pair (a b k : Nat) (ha : a < 2 ^ (k * 8)) :
    a ||| (b % 256) <<< (k * 8) = a + 2 ^ (k * 8) * (b % 256) :=
  lor_shift_add _ _ _ ha

theorem fold_le_go_eq (bytes : List Nat) (hb : ∀ b ∈ bytes, b < 256) (v i : Nat)
    (hv : v < 2 ^ (i * 8)) :
    fold_le_go v i bytes = v + 2 ^ (i * 8) * le_val bytes := by
  induction bytes generalizing v i with
  | nil => simp [fold_le_go, le_val]
  | cons b rest ih =>
      have hbb : b < 256 := hb b (by simp)
      have hstep : v ||| b <<< (i * 8) = v + 2 ^ (i * 8) * b := lor_shift_add _ _ _ hv
      have hlt : v + 2 ^ (i * 8) * b < 2 ^ ((i + 1) * 8) := by
        have : 2 ^ ((i + 1) * 8) = 2 ^ (i * 8) * 256 := by ring
        rw [this]
        calc v + 2 ^ (i * 8) * b < 2 ^ (i * 8) + 2 ^ (i * 8) * 255 := by
              have := Nat.mul_le_mul_left (2 ^ (i * 8)) (Nat.le_of_lt_succ hbb)
              omega
          _ ≤ 2 ^ (i * 8) * 256 := by ring_nf; omega
      rw [fold_le_go, hstep, ih (fun c hc => hb c (by simp [hc])) _ _ hlt]
      have : 2 ^ ((i + 1) * 8) = 2 ^ (i * 8) * 256 := by ring
      rw [this]
      simp [le_val]
      ring

theorem fold_le_eq (bytes : List Nat) (hb : ∀ b ∈ bytes, b < 256) :
    fold_le bytes = le_val bytes := by
  have := fold_le_go_eq bytes hb 0 0 (by norm_num)
  simpa [fold_le] using this

theorem split_bytes_mem (count x : Nat) : ∀ b ∈ split_bytes count x, b < 256 := by
  intro b hb
  simp [split_bytes] at hb
  obtain ⟨l, _, rfl⟩ := hb
  exact Nat.mod_lt _ (by norm_num)

theorem recon2 (x : Nat) (h : x < 2 ^ 16) : fold_le (split_bytes 2 x) = x := by
  rw [fold_le_eq _ (split_bytes_mem 2 x)]
  show (x >>> (0 * 8)) % 256 + 256 * ((x >>> (1 * 8)) % 256 + 256 * 0) = x
  simp only [Nat.shiftRight_eq_div_pow]
  omega

theorem recon4 (x : Nat) (h : x < 2 ^ 32) : fold_le (split_bytes 4 x) = x := by
  rw [fold_le_eq _ (split_bytes_mem 4 x)]
  show (x >>> (0 * 8)) % 256 + 256 * ((x >>> (1 * 8)) % 256 + 256 *
      ((x >>> (2 * 8)) % 256 + 256 * ((x >>> (3 * 8)) % 256 + 256 * 0))) = x
  simp only [Nat.shiftRight_eq_div_pow]
  omega

theorem recon8 (x : Nat) (h : x < 2 ^ 64) : fold_le (split_bytes 8 x) = x := by
  rw [fold_le_eq _ (split_bytes_mem 8 x)]
  show (x >>> (0 * 8)) % 256 + 256 * ((x >>> (1 * 8)) % 256 + 256 *
      ((x >>> (2 * 8)) % 256 + 256 * ((x >>> (3 * 8)) % 256 + 256 *
      ((x >>> (4 * 8)) % 256 + 256 * ((x >>> (5 * 8)) % 256 + 256 *
      ((x >>> (6 * 8)) % 256 + 256 * ((x >>> (7 * 8)) % 256 + 256 * 0))))))) = x
  simp only [Nat.shiftRight_eq_div_pow]
  omega

theorem split_bytes_length (count x : Nat) : (split_bytes count x).length = count := by
  simp [split_bytes]

theorem chunks8_cons (l rest : List Nat) (h : l.length = 8) :
    chunks8 (l ++ rest) = l :: chunks8 rest := by
  have hne : ¬(l ++ rest = []) := by
    intro he
    have := congrArg List.length he
    simp [h] at this
  rw [chunks8, dif_neg hne, ← h, List.take_left, List.drop_left]

theorem flatten_split_length (v : List Nat) :
    ((v.map (split_bytes 8)).flatten).length = 8 * v.length := by
  induction v with
  | nil => simp
  | cons x rest ih => simp [ih, split_bytes_length]; ring

theorem ofBytes_large (value : List Nat) (h : 5 ≤ value.length) :
    ofBytes value = longs ((chunks8 value).map fold_le) := by
  unfold ofBytes
  split
  all_goals first
    | rfl
    | (rename_i heq; omega)

theorem chunks8_flatten (v : List Nat) :
    chunks8 ((v.map (split_bytes 8)).flatten) = v.map (split_bytes 8) := by
  induction v with
  | nil => simp [chunks8]
  | cons x rest ih =>
      simp only [List.map_cons, List.flatten_cons]
      rw [chunks8_cons _ _ (split_bytes_length 8 x), ih]

end Bitmap

/-- C9: for every well-formed bitmap (payloads within the machine-integer
ranges of the Rust types), decoding the little-endian byte encoding yields
the original bitmap, for each of the four representation variants. -/
theorem bitmap_roundtrip (b : Bitmap) (h : b.wf) :
    Bitmap.ofBytes (Bitmap.toBytes b) = b := by
  cases b with
  | byte x => rfl
  | short x =>
      have : Bitmap.ofBytes (Bitmap.toBytes (Bitmap.short x)) =
          Bitmap.short (Bitmap.fold_le (Bitmap.split_bytes 2 x)) := rfl
      rw [this, Bitmap.recon2 x h]
  | int x =>
      have : Bitmap.ofBytes (Bitmap.toBytes (Bitmap.int x)) =
          Bitmap.int (Bitmap.fold_le (Bitmap.split_bytes 4 x)) := rfl
      rw [this, Bitmap.recon4 x h]
  | longs v =>
      cases v with
      | nil =>
          have h0 : Bitmap.chunks8 [] = [] := by simp [Bitmap.chunks8]
          show Bitmap.longs ((Bitmap.chunks8 []).map Bitmap.fold_le) = Bitmap.longs []
          rw [h0]
          rfl
      | cons x rest =>
          rw [Bitmap.toBytes, Bitmap.ofBytes_large _ (by
            rw [Bitmap.flatten_split_length]
            simp
            omega)]
          rw [Bitmap.chunks8_flatten, List.map_map]
          have : (Bitmap.fold_le ∘ Bitmap.split_bytes 8) = fun y => Bitmap.fold_le (Bitmap.split_bytes 8 y) := rfl
          rw [this]
          congr 1
          have hmap : ∀ w : List Nat, (∀ y ∈ w, y < 2 ^ 64) →
              w.map (fun y => Bitmap.fold_le (Bitmap.split_bytes 8 y)) = w := by
            intro w hw
            induction w with
            | nil => rfl
            | cons a t ih =>
                simp only [List.map_cons]
                rw [Bitmap.recon8 a (hw a (by simp)), ih (fun y hy => hw y (by simp [hy]))]
          exact hmap _ h

/-- C9 witness: a concrete 60-bit bitmap (a `Longs` payload) and a concrete
16-bit one survive the encode/decode roundtrip. -/
theorem bitmap_roundtrip_witness :
    (Bitmap.explicitly_set 60 [0, 17, 59]).wf ∧
      Bitmap.ofBytes (Bitmap.toBytes (Bitmap.explicitly_set 60 [0, 17, 59])) =
        Bitmap.explicitly_set 60 [0, 17, 59] :=
  ⟨by decide, bitmap_roundtrip _ (by decide)⟩

/-- C8 (refutation): the bitmap does not record its declared width, so an
index at or past the declared width but inside the representation width
reaches real storage bits: on a width-5 bitmap (stored as `Byte`), `set 6`
changes the value and `get 6` then reads `true`, where the claim demands a
silent no-op and `false`.  Moreover, at or past the representation width the
fixed-width arms shift by the full index, which release-mode Rust masks
(`Byte(1).get(8)` reads bit 0 and returns `true`) and debug-mode Rust
panics on — never the claimed `false`. -/
theorem bitmap_width_not_enforced :
    ((Bitmap.explicitly_set 5 []).set 6).get 6 = true ∧
      (Bitmap.explicitly_set 5 []).set 6 ≠ Bitmap.explicitly_set 5 [] ∧
      (Bitmap.byte 1).get 8 = true := by
  decide

end Ambrogio

namespace Ambrogio

/-- C1 (refutation): `find_day`'s fallback loop guards with the day-of-week
and week-of-month of `now` instead of the candidate day it just built, so a
returned instant need not satisfy the day-of-week bitmap.  With a grid whose
day-of-week bitmap holds only Thursday (3) and whose day-of-month bitmap
holds only the 30th, starting from 2024-07-31T23:59:00Z (the cursor lands on
Thursday 2024-08-01), the search returns 2024-08-30T00:00:00Z — a Friday. -/
theorem find_day_checks_wrong_weekday :
    thuGrid.next_scheduled_after ⟨2024, 6, 30, 23, 59, 0⟩ =
        some ⟨2024, 7, 29, 0, 0, 0⟩ ∧
      thuGrid.days_of_week.get (LDT.weekdayFromMonday ⟨2024, 7, 29, 0, 0, 0⟩) = false ∧
      thuGrid.days_of_month.get (⟨2024, 7, 29, 0, 0, 0⟩ : LDT).day0 = true := by
  decide

/-- C2 (refutation): the year-alignment step clamps the skipped year with
`.min(year_start)`, so when `(year(now) - year_start) % cadence ≠ 0` and
`year(now) > year_start` the cursor is thrown back to `year_start` and the
search can return an instant in the past.  With an unconstrained grid of
cadence 2 anchored at 2025, `next_tick` at 2026-06-15T12:00:00Z returns
2025-01-01T00:00:00Z, which is strictly before the input. -/
theorem next_tick_returns_past_instant :
    Schedule.next_tick (.Recurrent ⟨1970, 0, 0, 0, 0, 0⟩ cadence2Grid)
        ⟨2026, 5, 14, 12, 0, 0⟩ = some ⟨2025, 0, 0, 0, 0, 0⟩ ∧
      LDT.toInstant ⟨2025, 0, 0, 0, 0, 0⟩ < LDT.toInstant ⟨2026, 5, 14, 12, 0, 0⟩ := by
  decide

end Ambrogio

namespace Ambrogio

theorem daysInMonth_zero (y : Int) : daysInMonth y 0 = 31 := by
  unfold daysInMonth daysInMonthB
  rfl

theorem daysInMonth_pos (y : Int) (m0 : Nat) : 0 < daysInMonth y m0 := by
  unfold daysInMonth daysInMonthB
  cases isLeap y <;>
    rcases m0 with _ | _ | _ | _ | _ | _ | _ | _ | _ | _ | _ | m <;> simp

theorem daysInMonth_feb_le (y : Int) : daysInMonth y 1 ≤ 29 := by
  unfold daysInMonth daysInMonthB
  cases isLeap y <;> simp

namespace LDT

theorem nextDayD_valid_date (d : LDT) (hm : d.month0 < 12)
    (hd : d.day0 < daysInMonth d.year d.month0) :
    (nextDayD d).month0 < 12 ∧ (nextDayD d).day0 < daysInMonth (nextDayD d).year (nextDayD d).month0 := by
  unfold nextDayD
  split
  · exact ⟨hm, by simp_all⟩
  · split
    · refine ⟨by simp_all, ?_⟩
      simpa using daysInMonth_pos d.year (d.month0 + 1)
    · refine ⟨by simp, ?_⟩
      simpa using daysInMonth_pos (d.year + 1) 0

theorem prevDayD_valid_date (d : LDT) (hm : d.month0 < 12)
    (hd : d.day0 < daysInMonth d.year d.month0) :
    (prevDayD d).month0 < 12 ∧ (prevDayD d).day0 < daysInMonth (prevDayD d).year (prevDayD d).month0 := by
  unfold prevDayD
  split
  · exact ⟨hm, by simp; omega⟩
  · split
    · refine ⟨by simp; omega, ?_⟩
      have := daysInMonth_pos d.year (d.month0 - 1)
      simp
      omega
    · refine ⟨by norm_num, ?_⟩
      have h31 : daysInMonth (d.year - 1) 11 = 31 := by
        unfold daysInMonth daysInMonthB
        cases isLeap (d.year - 1) <;> rfl
      simp [h31]

theorem addDaysNat_valid_date (d : LDT) (n : Nat) (hm : d.month0 < 12)
    (hd : d.day0 < daysInMonth d.year d.month0) :
    (addDaysNat d n).month0 < 12 ∧
      (addDaysNat d n).day0 < daysInMonth (addDaysNat d n).year (addDaysNat d n).month0 := by
  induction n with
  | zero => exact ⟨hm, hd⟩
  | succ n ih => exact nextDayD_valid_date _ ih.1 ih.2

theorem subDaysNat_valid_date (d : LDT) (n : Nat) (hm : d.month0 < 12)
    (hd : d.day0 < daysInMonth d.year d.month0) :
    (subDaysNat d n).month0 < 12 ∧
      (subDaysNat d n).day0 < daysInMonth (subDaysNat d n).year (subDaysNat d n).month0 := by
  induction n with
  | zero => exact ⟨hm, hd⟩
  | succ n ih => exact prevDayD_valid_date _ ih.1 ih.2

theorem addDays_valid_date (d : LDT) (k : Int) (hm : d.month0 < 12)
    (hd : d.day0 < daysInMonth d.year d.month0) :
    (addDays d k).month0 < 12 ∧ (addDays d k).day0 < daysInMonth (addDays d k).year (addDays d k).month0 := by
  unfold addDays
  split
  · exact addDaysNat_valid_date d _ hm hd
  · exact subDaysNat_valid_date d _ hm hd

theorem nextDayD_keeps_time (d : LDT) :
    (nextDayD d).hour = d.hour ∧ (nextDayD d).minute = d.minute ∧ (nextDayD d).second = d.second := by
  unfold nextDayD
  split
  · simp
  · split <;> simp

theorem prevDayD_keeps_time (d : LDT) :
    (prevDayD d).hour = d.hour ∧ (prevDayD d).minute = d.minute ∧ (prevDayD d).second = d.second := by
  unfold prevDayD
  split
  · simp
  · split <;> simp

theorem addSeconds_valid (d : LDT) (k : Int) (hm : d.month0 < 12)
    (hd : d.day0 < daysInMonth d.year d.month0) :
    (addSeconds d k).valid := by
  unfold addSeconds valid
  have hdate := addDays_valid_date d
    (((d.hour : Int) * 3600 + (d.minute : Int) * 60 + (d.second : Int) + k) / 86400) hm hd
  set tot : Int := (d.hour : Int) * 3600 + (d.minute : Int) * 60 + (d.second : Int) + k with htot
  have h0 : 0 ≤ tot % 86400 := Int.emod_nonneg _ (by norm_num)
  have h1 : tot % 86400 < 86400 := Int.emod_lt_of_pos _ (by norm_num)
  refine ⟨hdate.1, hdate.2, ?_, ?_, ?_⟩ <;> simp <;> omega

theorem truncate_valid (d : LDT) (h : d.valid) : (ScheduleGrid.truncate_to_minute d).valid := by
  unfold ScheduleGrid.truncate_to_minute
  unfold valid at h ⊢
  simp only []
  refine ⟨h.1, h.2.1, h.2.2.1, h.2.2.2.1, by norm_num⟩

end LDT

namespace ScheduleGrid

theorem set_year_eq (c : LDT) (y : Int) :
    set_year c y = { c with year := y, month0 := 0, day0 := 0, hour := 0, minute := 0 } := by
  unfold set_year set_month0 set_day0 set_hour set_minute
  unfold LDT.withMinute LDT.withHour LDT.withDay0 LDT.withMonth0 LDT.withYear
  simp [daysInMonth_zero, daysInMonth_pos]

theorem set_year_valid (c : LDT) (y : Int) (h : c.valid) : (set_year c y).valid := by
  rw [set_year_eq]
  unfold LDT.valid at h ⊢
  simp [daysInMonth_zero]
  omega

end ScheduleGrid

theorem feb30_dom_get (d : Nat) (h : d < 29) : feb30Grid.days_of_month.get d = false := by
  revert d
  decide

theorem feb30_dom_iter (s : Nat) (h : s < 29) : feb30Grid.days_of_month.iter s = [29] := by
  revert s
  decide

theorem feb30_months_get (m : Nat) (h : m < 12) :
    feb30Grid.months_of_year.get m = decide (m = 1) := by
  revert m
  decide

theorem feb30_months_iter (s : Nat) (h : s < 12) :
    feb30Grid.months_of_year.iter s = if s < 1 then [1] else [] := by
  revert s
  decide

theorem feb30_find_day (c : LDT) (hv : c.valid) (hm : c.month0 = 1) :
    feb30Grid.find_day c = none := by
  obtain ⟨h12, hd, hh, hmin, hs⟩ := hv
  have hdle : c.day0 < 29 := by
    have := daysInMonth_feb_le c.year
    rw [hm] at hd
    omega
  have hget : feb30Grid.days_of_month.get c.day0 = false := feb30_dom_get _ hdle
  have hset : ScheduleGrid.set_day0 c 29 = none := by
    unfold ScheduleGrid.set_day0 ScheduleGrid.set_hour ScheduleGrid.set_minute
    unfold LDT.withMinute LDT.withHour LDT.withDay0
    have hle : daysInMonth c.year c.month0 ≤ 29 := by
      rw [hm]
      exact daysInMonth_feb_le c.year
    have h29 : ¬ (29 < daysInMonth c.year c.month0) := by omega
    simp [h29]
  unfold ScheduleGrid.find_day
  simp [hget, feb30_dom_iter _ hdle, hset]

theorem feb30_find_month (c : LDT) (hv : c.valid) :
    feb30Grid.find_month c = none := by
  have h12 := hv.1
  have hfirst : (if feb30Grid.months_of_year.get c.month0 then feb30Grid.find_day c else none) = none := by
    rw [feb30_months_get _ h12]
    by_cases h : c.month0 = 1
    · simp [h, feb30_find_day c hv h]
    · simp [h]
  have hone : ∀ c2 : LDT, ScheduleGrid.set_month0 c 1 = some c2 →
      feb30Grid.find_day c2 = none := by
    intro c2 hc2
    unfold ScheduleGrid.set_month0 ScheduleGrid.set_day0 ScheduleGrid.set_hour
      ScheduleGrid.set_minute at hc2
    unfold LDT.withMinute LDT.withHour LDT.withDay0 LDT.withMonth0 at hc2
    have hpos0 : 0 < daysInMonth c.year c.month0 := daysInMonth_pos _ _
    have hpos1 : 0 < daysInMonth c.year 1 := daysInMonth_pos _ _
    simp [hpos0, hpos1] at hc2
    refine feb30_find_day c2 ?_ ?_
    · rw [← hc2]
      refine ⟨by norm_num, by simpa using hpos1, by norm_num, by norm_num, ?_⟩
      simpa using hv.2.2.2.2
    · rw [← hc2]
  unfold ScheduleGrid.find_month
  rw [hfirst]
  rw [feb30_months_iter _ h12]
  by_cases h1 : c.month0 < 1
  · simp only [if_pos h1]
    cases hm : ScheduleGrid.set_month0 c 1 with
    | none => simp [hm]
    | some c2 => simp [hm, hone c2 hm]
  · simp [h1]

theorem feb30_searchLoop (n : Nat) (c : LDT) (hv : c.valid) :
    feb30Grid.searchLoop n c = none := by
  induction n generalizing c with
  | zero => rfl
  | succ n ih =>
      unfold ScheduleGrid.searchLoop
      rw [feb30_find_month c hv]
      exact ih _ (ScheduleGrid.set_year_valid _ _ hv)

/-- C6: the search loop is a total function that performs at most 50
year-iterations by construction (`searchLoop 50`), and on the impossible
"February 30th" grid it exhausts the bound and returns `None` for every
valid UTC instant. -/
theorem feb30_next_scheduled_after_none (t : LDT) (ht : t.valid) :
    feb30Grid.next_scheduled_after t = none := by
  unfold ScheduleGrid.next_scheduled_after
  have hv1 : (ScheduleGrid.truncate_to_minute (feb30Grid.toLocal (t.addSeconds 60))).valid := by
    refine LDT.truncate_valid _ ?_
    unfold ScheduleGrid.toLocal
    have h1 := LDT.addSeconds_valid t 60 ht.1 ht.2.1
    exact LDT.addSeconds_valid _ _ h1.1 h1.2.1
  rw [show ((feb30Grid.year_cadence : Int)) = 1 from rfl]
  simp only [Int.tmod_one]
  norm_num
  exact feb30_searchLoop 50 _ hv1

/-- C6 witness: the theorem applied at the concrete instant
2024-07-31T23:59:00Z. -/
theorem feb30_next_scheduled_after_none_witness :
    (⟨2024, 6, 30, 23, 59, 0⟩ : LDT).valid ∧
      feb30Grid.next_scheduled_after ⟨2024, 6, 30, 23, 59, 0⟩ = none :=
  ⟨by decide, feb30_next_scheduled_after_none _ (by decide)⟩

end Ambrogio

namespace Ambrogio

/-- C3 (refutation): `is_active` tests `current_tick.is_some() && defused`
— the negation on `defused` is missing — so `reinsert_reminder` removes a
live reminder whose schedule still produces a next tick from the index
(dropping it for good) and, conversely, re-enqueues a defused one.  Here the
every-minute recurrent reminder `demoState` is popped and re-inserted at
2024-08-17T12:00:30Z: its schedule yields a next tick, yet the state
vanishes from index and heap; the defused twin is pushed back instead. -/
theorem reinsert_drops_active_reminder :
    (demoState.definition.next_tick ⟨2024, 7, 16, 12, 0, 30⟩).isSome = true ∧
      demoStorage.reinsert_reminder (1, 7) ⟨2024, 7, 16, 12, 0, 30⟩ =
        { queue := [], lookup := [] } ∧
      (demoStorageDefused.reinsert_reminder (1, 7) ⟨2024, 7, 16, 12, 0, 30⟩).queue =
        [(1, 7)] := by
  decide

theorem find?_insert_fix (l : Lookup) (k k2 : Nat × Int) (v : ReminderState)
    (h : ¬ k = k2) :
    (l.map (fun p => if p.1 = k then (k, v) else p)).find?
        (fun p => decide (p.1 = k2)) =
      l.find? (fun p => decide (p.1 = k2)) := by
  induction l with
  | nil => rfl
  | cons p rest ih =>
      rw [List.map_cons]
      by_cases hp : p.1 = k
      · rw [if_pos hp, List.find?_cons_of_neg _ (by simp [h]),
          List.find?_cons_of_neg _ (by simp [hp, h]), ih]
      · rw [if_neg hp]
        by_cases hp2 : p.1 = k2
        · rw [List.find?_cons_of_pos _ (by simp [hp2]),
            List.find?_cons_of_pos _ (by simp [hp2])]
        · rw [List.find?_cons_of_neg _ (by simp [hp2]),
            List.find?_cons_of_neg _ (by simp [hp2]), ih]

theorem lookupFind_insert_other (l : Lookup) (k k2 : Nat × Int) (v : ReminderState)
    (h : ¬ k2 = k) : lookupFind (lookupInsert l k v) k2 = lookupFind l k2 := by
  have hkk2 : ¬ (k = k2) := fun he => h he.symm
  unfold lookupInsert
  split
  · unfold lookupFind
    rw [find?_insert_fix l k k2 v hkk2]
  · unfold lookupFind
    rw [List.find?_cons_of_neg _ (by simp [hkk2])]

theorem find?_filter_out (l : Lookup) (k k2 : Nat × Int) (h : ¬ k = k2) :
    (l.filter (fun p => decide (¬ p.1 = k))).find? (fun p => decide (p.1 = k2)) =
      l.find? (fun p => decide (p.1 = k2)) := by
  induction l with
  | nil => rfl
  | cons p rest ih =>
      rw [List.filter_cons]
      by_cases hp : p.1 = k
      · rw [if_neg (by simp [hp]), ih,
          Eq.symm (List.find?_cons_of_neg rest (p := fun p => decide (p.1 = k2))
            (a := p) (by simp [hp, h]))]
      · rw [if_pos (by simp [hp])]
        by_cases hp2 : p.1 = k2
        · rw [List.find?_cons_of_pos _ (by simp [hp2]),
            List.find?_cons_of_pos _ (by simp [hp2])]
        · rw [List.find?_cons_of_neg _ (by simp [hp2]),
            List.find?_cons_of_neg _ (by simp [hp2]), ih]

theorem lookupFind_remove_other (l : Lookup) (k k2 : Nat × Int) (h : ¬ k2 = k) :
    lookupFind (lookupRemove l k) k2 = lookupFind l k2 := by
  unfold lookupRemove lookupFind
  rw [find?_filter_out l k k2 (fun he => h he.symm)]

theorem find_map_defuse (l : Lookup) (k : Nat × Int) :
    lookupFind (l.map (fun p => if p.1 = k then (p.1, p.2.defuseState) else p)) k =
      (lookupFind l k).map ReminderState.defuseState := by
  unfold lookupFind
  induction l with
  | nil => rfl
  | cons p rest ih =>
      rw [List.map_cons]
      by_cases hp : p.1 = k
      · rw [if_pos hp, List.find?_cons_of_pos _ (by simp [hp]),
          List.find?_cons_of_pos _ (by simp [hp])]
        rfl
      · rw [if_neg hp, List.find?_cons_of_neg _ (by simp [hp]),
          List.find?_cons_of_neg _ (by simp [hp]), ih]

theorem find_map_defuse_other (l : Lookup) (k k2 : Nat × Int) (h : ¬ k2 = k) :
    lookupFind (l.map (fun p => if p.1 = k then (p.1, p.2.defuseState) else p)) k2 =
      lookupFind l k2 := by
  unfold lookupFind
  induction l with
  | nil => rfl
  | cons p rest ih =>
      rw [List.map_cons]
      by_cases hp : p.1 = k
      · have hne : ¬ (k = k2) := fun he => h he.symm
        rw [if_pos hp, List.find?_cons_of_neg _ (by simp [hp, hne]),
          List.find?_cons_of_neg _ (by simp [hp, hne]), ih]
      · rw [if_neg hp]
        by_cases hp2 : p.1 = k2
        · rw [List.find?_cons_of_pos _ (by simp [hp2]),
            List.find?_cons_of_pos _ (by simp [hp2])]
        · rw [List.find?_cons_of_neg _ (by simp [hp2]),
            List.find?_cons_of_neg _ (by simp [hp2]), ih]

end Ambrogio

namespace Ambrogio

theorem dequeue_go_spec (fuel : Nat) (s : EngineStorage) (rem : Reminder)
    (s2 : EngineStorage) (h : EngineStorage.dequeue_go fuel s = some (rem, s2)) :
    s2.lookup = s.lookup ∧
      ∃ st, lookupFind s.lookup (rem.user_id, rem.id) = some st ∧ st.defused = false := by
  induction fuel generalizing s with
  | zero => simp [EngineStorage.dequeue_go] at h
  | succ fuel ih =>
      unfold EngineStorage.dequeue_go at h
      cases hpop : EngineStorage.popMin s.queue with
      | none => simp [hpop] at h
      | some pr =>
          obtain ⟨e, rest⟩ := pr
          rw [hpop] at h
          cases hfind : lookupFind s.lookup (e.user_id, e.id) with
          | none =>
              simp only [hfind] at h
              have hres := ih _ h
              exact hres
          | some st =>
              simp only [hfind] at h
              by_cases hdef : st.defused
              · rw [if_pos hdef] at h
                have hres := ih _ h
                exact hres
              · rw [if_neg hdef] at h
                injection h with h1
                injection h1 with hrem hs2
                subst hrem
                subst hs2
                exact ⟨rfl, st, hfind, by simpa using hdef⟩

theorem advance_find_other (s : EngineStorage) (rem : Reminder) (thenAt : LDT)
    (k : Nat × Int) (hk : ¬ k = (rem.user_id, rem.id)) :
    lookupFind (s.advance rem thenAt).lookup k = lookupFind s.lookup k := by
  unfold EngineStorage.advance
  cases hfind : lookupFind s.lookup (rem.user_id, rem.id) with
  | none => rfl
  | some st =>
      dsimp only
      cases hnext : st.definition.next_tick thenAt with
      | some d => exact lookupFind_insert_other _ _ _ _ hk
      | none => exact lookupFind_remove_other _ _ _ hk

theorem engine_step_defused (s : EngineStorage) (now : LDT) (ev : LoopEvent)
    (u : Nat) (id : Int) (hinv : DefusedAt s u id) :
    DefusedAt (engine_step s now ev).1 u id ∧ (u, id) ∉ (engine_step s now ev).2 := by
  unfold engine_step
  cases hdq : s.dequeue_next with
  | none => exact ⟨hinv, by simp⟩
  | some pr =>
      obtain ⟨rem, s1⟩ := pr
      obtain ⟨hlk, st, hfind, hno⟩ :=
        dequeue_go_spec _ _ _ _ hdq
      have hkey : ¬ ((u, id) = (rem.user_id, rem.id)) := by
        intro he
        rw [← he] at hfind
        have := hinv st hfind
        rw [this] at hno
        exact absurd hno (by simp)
      constructor
      · intro st2 hst2
        simp only [] at hst2
        rw [advance_find_other s1 rem now _ hkey] at hst2
        rw [hlk] at hst2
        exact hinv st2 hst2
      · simp only []
        cases ev with
        | elapsed =>
            cases rem.current_tick with
            | none => simp
            | some d => simpa using hkey
        | wake => simp

theorem engine_run_defused (trace : List (LDT × LoopEvent)) (s : EngineStorage)
    (u : Nat) (id : Int) (hinv : DefusedAt s u id) :
    (u, id) ∉ (engine_run trace s).2 := by
  induction trace generalizing s with
  | nil => simp [engine_run]
  | cons step rest ih =>
      obtain ⟨now, ev⟩ := step
      unfold engine_run
      rw [List.mem_append]
      push_neg
      have hstep := engine_step_defused s now ev u id hinv
      exact ⟨hstep.2, ih _ hstep.1⟩

theorem defuseE_defusedAt (s : EngineStorage) (u : Nat) (id : Int) :
    DefusedAt (s.defuseE u id) u id := by
  intro st hst
  unfold EngineStorage.defuseE at hst
  rw [show ({ s with
      lookup := s.lookup.map
        (fun p => if p.1 = (u, id) then (p.1, p.2.defuseState) else p) } :
        EngineStorage).lookup =
      s.lookup.map (fun p => if p.1 = (u, id) then (p.1, p.2.defuseState) else p)
    from rfl, find_map_defuse] at hst
  cases hfind : lookupFind s.lookup (u, id) with
  | none => rw [hfind] at hst; simp at hst
  | some st0 =>
      rw [hfind] at hst
      rw [show (some st0).map ReminderState.defuseState = some st0.defuseState from rfl] at hst
      injection hst with hst
      rw [← hst]
      rfl

/-- C4: after `defuse(user_id, id)` the state's `current_tick()` observes
`None`, and no amount of subsequent engine-loop activity (any trace of
sleep-elapsed / wake-up iterations at any instants) ever passes
`(user_id, id)` to the callback: the defused entry is skipped by
`dequeue_next`, not fired. -/
theorem defused_reminder_never_fires (s : EngineStorage) (u : Nat) (id : Int)
    (trace : List (LDT × LoopEvent)) :
    (∀ st, lookupFind (s.defuseE u id).lookup (u, id) = some st →
        st.current_tick_obs = none) ∧
      (u, id) ∉ (engine_run trace (s.defuseE u id)).2 := by
  constructor
  · intro st hst
    have hdef := defuseE_defusedAt s u id st hst
    unfold ReminderState.current_tick_obs
    rw [hdef]
    rfl
  · exact engine_run_defused trace _ u id (defuseE_defusedAt s u id)

/-- C4 witness: the loop fires the live `demoState` reminder but, once
defused, the same storage and trace fire nothing, and the stored state
observes `current_tick() = None`. -/
theorem defused_reminder_never_fires_witness :
    (engine_run [(⟨2024, 7, 16, 12, 0, 30⟩, .elapsed)] demoEngineStorage).2 = [(1, 7)] ∧
      (1, 7) ∉ (engine_run [(⟨2024, 7, 16, 12, 0, 30⟩, .elapsed)]
        (demoEngineStorage.defuseE 1 7)).2 ∧
      (lookupFind (demoEngineStorage.defuseE 1 7).lookup (1, 7)).map
          ReminderState.current_tick_obs = some none :=
  ⟨by decide,
   (defused_reminder_never_fires demoEngineStorage 1 7
      [(⟨2024, 7, 16, 12, 0, 30⟩, .elapsed)]).2,
   by decide⟩

end Ambrogio

namespace Ambrogio

/-- C5: durable-store failures leave memory consistent.  If the durable
create fails during `add`, the freshly made in-memory insertion is defused
(its observed `current_tick()` becomes `None`) and `add` returns `None`;
`defuse` deletes durably first: on failure it returns `false` with the
in-memory state untouched, on success it marks the state defused (observed
tick `None`) and returns `true`. -/
theorem durable_failure_keeps_memory_consistent (s : InMemoryStorage)
    (defn : ReminderDefinition) (now : LDT) (rng : List Int) (id : Int)
    (s1 : InMemoryStorage) (hins : s.insertOp defn now rng = some (id, s1)) :
    engine_add s defn now rng false = (none, s1.defuse_mem defn.user_id id) ∧
      (∀ st, lookupFind (s1.defuse_mem defn.user_id id).lookup (defn.user_id, id) =
          some st → st.current_tick_obs = none) ∧
      (∀ u i, engine_defuse s u i false = (false, s)) ∧
      (∀ u i, engine_defuse s u i true = (true, s.defuse_mem u i)) ∧
      (∀ u i st, lookupFind (s.defuse_mem u i).lookup (u, i) = some st →
          st.current_tick_obs = none) := by
  have hobs : ∀ (l : Lookup) (k : Nat × Int) (st : ReminderState),
      lookupFind (l.map (fun p => if p.1 = k then (p.1, p.2.defuseState) else p)) k =
        some st → st.current_tick_obs = none := by
    intro l k st hst
    rw [find_map_defuse] at hst
    cases hfind : lookupFind l k with
    | none => rw [hfind] at hst; exact absurd hst (by simp)
    | some st0 =>
        rw [hfind] at hst
        rw [show (some st0).map ReminderState.defuseState = some st0.defuseState from rfl] at hst
        injection hst with hst
        rw [← hst]
        rfl
  refine ⟨?_, ?_, ?_, ?_, ?_⟩
  · unfold engine_add
    rw [hins]
    rfl
  · intro st hst
    exact hobs s1.lookup (defn.user_id, id) st hst
  · intro u i
    rfl
  · intro u i
    rfl
  · intro u i st hst
    exact hobs s.lookup (u, i) st hst

/-- C5 witness: inserting a one-shot reminder (id 5) into the empty storage
succeeds, so the theorem applies: the failed-create `add` returns `None`
with the insert defused, and both `defuse` outcomes behave as claimed. -/
theorem durable_failure_keeps_memory_consistent_witness :
    emptyStorage.insertOp onceDef ⟨2024, 7, 16, 10, 0, 0⟩ [5] = some (5, onceInserted) ∧
      engine_add emptyStorage onceDef ⟨2024, 7, 16, 10, 0, 0⟩ [5] false =
        (none, onceInserted.defuse_mem 1 5) :=
  ⟨by decide,
   (durable_failure_keeps_memory_consistent emptyStorage onceDef
      ⟨2024, 7, 16, 10, 0, 0⟩ [5] 5 onceInserted (by decide)).1⟩

end Ambrogio

namespace Ambrogio

/-- C7 (refutation): parsing "ricordami ogni venerdì alle 18 dal 29 agosto
al 26 ottobre" at 2024-08-17T20:58:00+02:00 yields the expected
`RecurrentUntil` schedule (since 2024-08-29, until 2024-10-26, Fridays at
18:00), but already the first `next_tick` is `None` instead of
2024-08-30T18:00+02:00: starting from Thursday 2024-08-29, `find_day`'s
fallback tests the weekday of the cursor rather than of each candidate day,
so no Friday of the window is ever found; the first month whose 1st is a
Friday is November 2024, which the `until` bound then filters out.  The
repository's own test (`ricordami_ogni_venerdì_alle_18_dal_30_agosto_al_26_ottobre`,
parsing.rs) asserts the nine-Friday sequence and fails on this code. -/
theorem friday_reminder_never_fires :
    try_parse fridayTokens fridayNow 120 = some fridaySched ∧
      Schedule.next_tick fridaySched fridayNow = none := by
  decide

end Ambrogio

namespace Ambrogio

theorem dbm_step : ∀ (leap : Bool), ∀ m0 < 11,
    daysBeforeMonth leap (m0 + 1) = daysBeforeMonth leap m0 + daysInMonthB leap m0 := by
  decide

theorem dbm11 : ∀ leap : Bool,
    daysBeforeMonth leap 11 = 334 + (if leap then 1 else 0) := by
  decide

theorem dim11 : ∀ leap : Bool, daysInMonthB leap 11 = 31 := by
  decide

theorem leapsBefore_step (y : Int) :
    leapsBefore (y + 1) - leapsBefore y = if isLeap y then 1 else 0 := by
  unfold leapsBefore isLeap
  by_cases h4 : y % 4 = 0 <;> by_cases h100 : y % 100 = 0 <;>
    by_cases h400 : y % 400 = 0 <;>
    simp only [h4, h100, h400, beq_iff_eq, bne_iff_ne, ne_eq, Bool.and_eq_true,
      Bool.or_eq_true, decide_eq_true_eq, not_true, not_false_iff] <;>
    simp <;> omega

namespace LDT

theorem dFC_nextDayD (d : LDT) (hm : d.month0 < 12)
    (hd : d.day0 < daysInMonth d.year d.month0) :
    daysFromCivil (nextDayD d).year (nextDayD d).month0 (nextDayD d).day0 =
      daysFromCivil d.year d.month0 d.day0 + 1 := by
  unfold nextDayD
  split
  · unfold daysFromCivil
    dsimp only
    push_cast
    ring
  · rename_i hno
    split
    · rename_i hm1
      unfold daysFromCivil
      dsimp only
      have hstep := dbm_step (isLeap d.year) d.month0 (by omega)
      unfold daysInMonth at hd hno
      push_cast [hstep]
      omega
    · rename_i hm1
      have h11 : d.month0 = 11 := by omega
      unfold daysFromCivil
      dsimp only
      have hLB := leapsBefore_step d.year
      have hd30 : d.day0 = 30 := by
        unfold daysInMonth at hd hno
        rw [h11, dim11] at hd hno
        omega
      rw [h11, hd30]
      cases hl : isLeap d.year with
      | false =>
          simp only [hl] at hLB
          norm_num at hLB
          have h334f : daysBeforeMonth false 11 = 334 := by decide
          simp only [hl, h334f]
          push_cast [daysBeforeMonth]
          omega
      | true =>
          simp only [hl] at hLB
          norm_num at hLB
          have h334t : daysBeforeMonth true 11 = 335 := by decide
          simp only [hl, h334t]
          push_cast [daysBeforeMonth]
          omega

theorem dFC_prevDayD (d : LDT) (hm : d.month0 < 12)
    (hd : d.day0 < daysInMonth d.year d.month0) :
    daysFromCivil (prevDayD d).year (prevDayD d).month0 (prevDayD d).day0 =
      daysFromCivil d.year d.month0 d.day0 - 1 := by
  unfold prevDayD
  split
  · rename_i h0
    unfold daysFromCivil
    dsimp only
    push_cast
    omega
  · rename_i h0
    split
    · rename_i hm0
      unfold daysFromCivil
      dsimp only
      have hstep := dbm_step (isLeap d.year) (d.month0 - 1) (by omega)
      have hpos := daysInMonth_pos d.year (d.month0 - 1)
      unfold daysInMonth at hpos ⊢
      rw [show d.month0 - 1 + 1 = d.month0 from by omega] at hstep
      push_cast [hstep]
      omega
    · rename_i hm0
      have hm00 : d.month0 = 0 := by omega
      have hd0 : d.day0 = 0 := by omega
      unfold daysFromCivil
      dsimp only
      have hLB := leapsBefore_step (d.year - 1)
      rw [show d.year - 1 + 1 = d.year from by ring] at hLB
      rw [hm00, hd0]
      cases hl : isLeap (d.year - 1) with
      | false =>
          simp only [hl] at hLB
          norm_num at hLB
          have h334f : daysBeforeMonth false 11 = 334 := by decide
          simp only [hl, h334f]
          push_cast [daysBeforeMonth]
          omega
      | true =>
          simp only [hl] at hLB
          norm_num at hLB
          have h334t : daysBeforeMonth true 11 = 335 := by decide
          simp only [hl, h334t]
          push_cast [daysBeforeMonth]
          omega

theorem dFC_addDaysNat (d : LDT) (n : Nat) (hm : d.month0 < 12)
    (hd : d.day0 < daysInMonth d.year d.month0) :
    daysFromCivil (addDaysNat d n).year (addDaysNat d n).month0 (addDaysNat d n).day0 =
      daysFromCivil d.year d.month0 d.day0 + n := by
  induction n with
  | zero => simp [addDaysNat]
  | succ n ih =>
      have hv := addDaysNat_valid_date d n hm hd
      have hun : addDaysNat d (n + 1) = nextDayD (addDaysNat d n) := rfl
      rw [hun, dFC_nextDayD _ hv.1 hv.2, ih]
      push_cast
      ring

theorem dFC_subDaysNat (d : LDT) (n : Nat) (hm : d.month0 < 12)
    (hd : d.day0 < daysInMonth d.year d.month0) :
    daysFromCivil (subDaysNat d n).year (subDaysNat d n).month0 (subDaysNat d n).day0 =
      daysFromCivil d.year d.month0 d.day0 - n := by
  induction n with
  | zero => simp [subDaysNat]
  | succ n ih =>
      have hv := subDaysNat_valid_date d n hm hd
      have hun : subDaysNat d (n + 1) = prevDayD (subDaysNat d n) := rfl
      rw [hun, dFC_prevDayD _ hv.1 hv.2, ih]
      push_cast
      ring

theorem dFC_addDays (d : LDT) (k : Int) (hm : d.month0 < 12)
    (hd : d.day0 < daysInMonth d.year d.month0) :
    daysFromCivil (addDays d k).year (addDays d k).month0 (addDays d k).day0 =
      daysFromCivil d.year d.month0 d.day0 + k := by
  unfold addDays
  split
  · rename_i hk
    rw [dFC_addDaysNat d _ hm hd, Int.toNat_of_nonneg hk]
  · rename_i hk
    rw [dFC_subDaysNat d _ hm hd, Int.toNat_of_nonneg (by omega)]
    ring

theorem addDaysNat_keeps_time (d : LDT) (n : Nat) :
    (addDaysNat d n).hour = d.hour ∧ (addDaysNat d n).minute = d.minute ∧
      (addDaysNat d n).second = d.second := by
  induction n with
  | zero => exact ⟨rfl, rfl, rfl⟩
  | succ n ih =>
      have h := nextDayD_keeps_time (addDaysNat d n)
      exact ⟨h.1.trans ih.1, h.2.1.trans ih.2.1, h.2.2.trans ih.2.2⟩

theorem subDaysNat_keeps_time (d : LDT) (n : Nat) :
    (subDaysNat d n).hour = d.hour ∧ (subDaysNat d n).minute = d.minute ∧
      (subDaysNat d n).second = d.second := by
  induction n with
  | zero => exact ⟨rfl, rfl, rfl⟩
  | succ n ih =>
      have h := prevDayD_keeps_time (subDaysNat d n)
      exact ⟨h.1.trans ih.1, h.2.1.trans ih.2.1, h.2.2.trans ih.2.2⟩

theorem toInstant_addSeconds (d : LDT) (k : Int) (hm : d.month0 < 12)
    (hd : d.day0 < daysInMonth d.year d.month0) :
    (d.addSeconds k).toInstant = d.toInstant + k := by
  unfold addSeconds toInstant
  simp only []
  set tot : Int := (d.hour : Int) * 3600 + (d.minute : Int) * 60 + (d.second : Int) + k
    with htot
  have hdfc := dFC_addDays d (tot / 86400) hm hd
  rw [hdfc]
  have hq := Int.ediv_add_emod tot 86400
  have hr0 : 0 ≤ tot % 86400 := Int.emod_nonneg _ (by norm_num)
  have hr1 : tot % 86400 < 86400 := Int.emod_lt_of_pos _ (by norm_num)
  rw [Int.toNat_of_nonneg (by omega), Int.toNat_of_nonneg (by omega),
    Int.toNat_of_nonneg (by omega)]
  omega

end LDT

end Ambrogio

namespace Ambrogio

theorem peek_parse_none {α : Type} (f : String → Option α) (toks : List String)
    (h : ∀ t ∈ toks, f t = none) : peek_parse f toks = (none, toks) := by
  cases toks with
  | nil => rfl
  | cons t rest =>
      show (match f t with
        | some v => (some v, rest)
        | none => (none, t :: rest)) = (none, t :: rest)
      rw [h t (by simp)]

theorem custom_parse_time_none (t : String) (rest : List String)
    (h : natToken t = none) : custom_parse_time (t :: rest) = (none, t :: rest) := by
  unfold custom_parse_time
  dsimp only
  rw [h]

theorem try_parse_time_unrec (toks : List String) (h : ∀ t ∈ toks, Unrec t) :
    try_parse_time toks = (none, toks) := by
  cases toks with
  | nil => rfl
  | cons t rest =>
      have ht := h t (by simp)
      unfold try_parse_time parse_time_fmt
      rw [peek_parse_none _ _ (fun t2 ht2 => (h t2 ht2).2.2.2.2.2.1)]
      dsimp only
      rw [custom_parse_time_none t rest ht.2.2.2.1]

theorem at_time_unrec (lb w : LDT) (toks : List String) (h : ∀ t ∈ toks, Unrec t) :
    at_time lb w toks = (w, toks) := by
  unfold at_time
  rw [try_parse_time_unrec toks h]
  rfl

theorem try_parse_day_none (toks : List String) (h : ∀ t ∈ toks, Unrec t) :
    try_parse_day toks = (none, toks) := by
  unfold try_parse_day
  refine peek_parse_none _ _ (fun t2 ht2 => ?_)
  rw [(h t2 ht2).2.2.2.1]
  rfl

theorem at_date_unrec (lb w : LDT) (toks : List String) (h : ∀ t ∈ toks, Unrec t) :
    at_date lb w toks = (w, toks) := by
  have h1 : parse_date_fmt toks = (none, toks) :=
    peek_parse_none _ _ (fun t2 ht2 => (h t2 ht2).2.2.2.2.2.2)
  have h2 : try_parse_day toks = (none, toks) := try_parse_day_none toks h
  unfold at_date
  rw [h1]
  dsimp only
  rw [h2]
  rfl

theorem at_month_unrec (w : LDT) (toks : List String) (h : ∀ t ∈ toks, Unrec t) :
    at_month w toks = (w, toks) := by
  have h1 : try_parse_month toks = (none, toks) :=
    peek_parse_none _ _ (fun t2 ht2 => (h t2 ht2).2.2.1)
  unfold at_month
  rw [h1]
  rfl

theorem at_beginning_of_year_unrec (w : LDT) (toks : List String)
    (h : ∀ t ∈ toks, Unrec t) : at_beginning_of_year w toks = (w, toks) := by
  have h1 : try_parse_year toks = (none, toks) :=
    peek_parse_none _ _ (fun t2 ht2 => (h t2 ht2).2.2.2.2.1)
  unfold at_beginning_of_year
  rw [h1]
  rfl

theorem configure_weekday_unrec (w : LDT) (toks : List String)
    (h : ∀ t ∈ toks, Unrec t) : configure_weekday w toks = (w, toks) := by
  have h1 : try_parse_weekday toks = (none, toks) :=
    peek_parse_none _ _ (fun t2 ht2 => (h t2 ht2).2.1)
  unfold configure_weekday
  rw [h1]
  rfl

theorem advance_time_unrec (fuel : Nat) (w : LDT) (toks : List String)
    (h : ∀ t ∈ toks, Unrec t) : advance_time fuel w toks = (w, toks) := by
  cases fuel with
  | zero => rfl
  | succ fuel =>
      cases toks with
      | nil => rfl
      | cons q rest =>
          unfold advance_time
          rw [(h q (by simp)).2.2.2.2.1]

theorem build_once_go_unrec (nowc : LDT) (fuel : Nat) (toks : List String) (w : LDT)
    (h : ∀ t ∈ toks, Unrec t) (hf : toks.length ≤ fuel) :
    build_once_go nowc fuel toks w = w := by
  induction fuel generalizing toks w with
  | zero =>
      cases toks with
      | nil => rfl
      | cons t rest => simp at hf
  | succ fuel ih =>
      cases toks with
      | nil => rfl
      | cons t rest =>
          have ht := h t (by simp)
          have hmem := ht.1
          simp only [List.mem_cons, List.mem_singleton] at hmem
          push_neg at hmem
          unfold build_once_go
          rw [if_neg hmem.1, if_neg hmem.2.1, if_neg (by tauto), if_neg (by tauto),
            if_neg (by tauto), ht.2.1]
          exact ih rest w (fun t2 ht2 => h t2 (by simp [ht2])) (by simpa using hf)

theorem starter_dispatch (k : String) (hk : k ∈ onceStarters) (rest : List String)
    (now : LDT) (off : Int) :
    dispatch_category (k :: rest) now off =
      build_once off (k :: rest) (now.addSeconds (60 * off)) := by
  fin_cases hk <;> rfl

theorem starter_first_step (k : String) (hk : k ∈ onceStarters) (rest : List String)
    (hrest : ∀ t ∈ rest, Unrec t) (nowc w : LDT) :
    build_once_go nowc (rest.length + 1) (k :: rest) w = w := by
  have htail : build_once_go nowc rest.length rest w = w :=
    build_once_go_unrec nowc rest.length rest w hrest (le_refl _)
  fin_cases hk
  all_goals first
    | (refine Eq.trans (show _ =
          build_once_go nowc rest.length (advance_time (rest.length + 1) w rest).2
            (advance_time (rest.length + 1) w rest).1 from rfl) ?_
       rw [advance_time_unrec _ _ _ hrest]
       exact htail)
    | (refine Eq.trans (show _ =
          build_once_go nowc rest.length (at_time nowc w rest).2
            (at_time nowc w rest).1 from rfl) ?_
       rw [at_time_unrec _ _ _ hrest]
       exact htail)
    | (refine Eq.trans (show _ =
          build_once_go nowc rest.length (at_date nowc w rest).2
            (at_date nowc w rest).1 from rfl) ?_
       rw [at_date_unrec _ _ _ hrest]
       exact htail)
    | (refine Eq.trans (show _ =
          build_once_go nowc rest.length (at_month w rest).2
            (at_month w rest).1 from rfl) ?_
       rw [at_month_unrec _ _ hrest]
       exact htail)
    | (refine Eq.trans (show _ =
          build_once_go nowc rest.length (at_beginning_of_year w rest).2
            (at_beginning_of_year w rest).1 from rfl) ?_
       rw [at_beginning_of_year_unrec _ _ hrest]
       exact htail)
    | (refine Eq.trans (show _ =
          build_once_go nowc rest.length (configure_weekday w rest).2
            (configure_weekday w rest).1 from rfl) ?_
       rw [configure_weekday_unrec _ _ hrest]
       exact htail)

/-- C10: whenever the token after the command word is one of the Once-branch
keywords or an Italian weekday name, `try_parse` returns `Some` of a `Once`
schedule even if every remaining token is unrecognised; in that degenerate
case the candidate instant is never mutated, so the schedule is
`Once` of an instant equal to `now` (chrono equality of date-times is
instant equality), already expired: its `next_tick(now)` is `None`. -/
theorem once_branch_returns_now (cmd k : String) (rest : List String) (now : LDT)
    (off : Int) (hnow : now.valid) (hk : k ∈ onceStarters)
    (hrest : ∀ t ∈ rest, Unrec t) :
    ∃ w, try_parse (cmd :: k :: rest) now off = some (.Once w) ∧
      w.toInstant = now.toInstant ∧ Schedule.next_tick (.Once w) now = none := by
  have hctxv := LDT.addSeconds_valid now (60 * off) hnow.1 hnow.2.1
  have hw : (((now.addSeconds (60 * off))).addSeconds (-(60 * off))).toInstant =
      now.toInstant := by
    rw [LDT.toInstant_addSeconds _ _ hctxv.1 hctxv.2.1,
      LDT.toInstant_addSeconds _ _ hnow.1 hnow.2.1]
    ring
  refine ⟨(now.addSeconds (60 * off)).addSeconds (-(60 * off)), ?_, hw, ?_⟩
  · show dispatch_category (k :: rest) now off = _
    rw [starter_dispatch k hk rest now off]
    unfold build_once
    rw [show (k :: rest).length = rest.length + 1 from rfl,
      starter_first_step k hk rest hrest _ _]
  · unfold Schedule.next_tick
    dsimp only
    rw [if_neg (by rw [hw]; exact lt_irrefl _)]

/-- C10 witness: `"ricordami alle pizza"` (second token a Once keyword, the
rest unrecognised) parsed at the scenario instant. -/
theorem once_branch_returns_now_witness :
    ∃ w, try_parse ["ricordami", "alle", "pizza"] fridayNow 120 = some (.Once w) ∧
      w.toInstant = fridayNow.toInstant ∧
      Schedule.next_tick (.Once w) fridayNow = none :=
  once_branch_returns_now "ricordami" "alle" ["pizza"] fridayNow 120
    (by decide) (by decide) (by decide)

end Ambrogio
